import Mathlib

/-!
Shallow embedding of `src/highscore.py` (repository `4-en/highscore_api`),
a FastAPI highscore service.  The embedding models:

* the CSV table files (`csv.DictReader` / `csv.DictWriter` with delimiter `,`,
  lineterminator `"\n"`, QUOTE_MINIMAL quoting), including Python's
  universal-newline translation performed by `open(path, "r")`;
* Python `int(...)` parsing of the score column and `str(...)` printing;
* the stable descending sort `highscores.sort(key=lambda x: x["score"], reverse=True)`;
* the `lru_cache`d loader `get_highscores`, the writer `update_highscores`,
  and the endpoint handlers `get_highscore` and `save_highscore` (both the
  plain variant and the `--use_secret` variant with `calc_secret_key`);
* SHA-256 (as used by `hashlib.sha256(...).hexdigest()`), implemented over
  `Nat` arithmetic mod 2^32.

Machine-level caveats of the model are noted next to each definition.
-/

/-! ## Data model

`csv.DictReader` rows are Python dicts whose values may be `None` (`restval`)
when a data row is shorter than the header, so the `name` and `time` fields of
a loaded entry are modelled as `Option String`.  The `score` field is always a
Python `int` (`int(row["score"])`). -/

/-- One highscore record as held in memory by `highscore.py`:
the dict `{"name": ..., "score": ..., "time": ...}`. -/
structure Entry where
  name : Option String
  score : Int
  time : Option String
  deriving Repr, DecidableEq

/-- Request body of `POST /highscore/save/{name}` (pydantic model `Score`). -/
structure Score where
  name : String
  score : Int
  deriving Repr, DecidableEq

/-- Request body in `--use_secret` mode (pydantic model `VerifiedScore`). -/
structure VerifiedScore where
  name : String
  score : Int
  secret : String
  deriving Repr, DecidableEq

/-- One `{name, score}` element of a `Highscores` response. -/
structure ScoreOut where
  name : Option String
  score : Int
  deriving Repr, DecidableEq

/-- Response model `Highscores`. -/
structure Highscores where
  name : String
  highscores : List ScoreOut
  deriving Repr, DecidableEq

/-- The process-wide configuration from `get_args()`: the (already split,
stripped and lower-cased) table list, `args.size` and `args.salt`.
`args.size` is modelled as a `Nat`; the spec's configuration surface fixes the
capacity to a positive integer. -/
structure Config where
  tables : List String
  size : Nat
  salt : String
  deriving Repr

/-- Conversion used when building a `Highscores` response:
`Score(name=score["name"], score=score["score"])`. -/
def entryToScore (e : Entry) : ScoreOut := ⟨e.name, e.score⟩

/-! ## Python string primitives -/

/-- ASCII lower-casing of one character, modelling `str.lower` on the
ASCII range (the identifiers this service handles; full Unicode lower-casing
is not modelled). -/
def pyLowerChar (c : Char) : Char :=
  if 'A' ≤ c ∧ c ≤ 'Z' then Char.ofNat (c.toNat + 32) else c

/-- Model of Python `str.lower()`. -/
def pyLower (s : String) : String := String.mk (s.data.map pyLowerChar)

/-- ASCII whitespace recognised by `str.strip()` / `int()`. -/
def pyWhitespace (c : Char) : Bool :=
  c = ' ' ∨ c = '\t' ∨ c = '\n' ∨ c = '\r' ∨ c = '\x0b' ∨ c = '\x0c'

/-- Model of Python `str.strip()` (ASCII whitespace). -/
def pyStrip (cs : List Char) : List Char :=
  ((cs.dropWhile pyWhitespace).reverse.dropWhile pyWhitespace).reverse

/-- Is `c` an ASCII decimal digit? -/
def isPyDigit (c : Char) : Bool := '0' ≤ c ∧ c ≤ '9'

/-- Numeric value of an ASCII digit. -/
def digitVal (c : Char) : Nat := c.toNat - 48

/-- Digit-run parser for Python `int()`: a non-empty sequence of ASCII
digits in which `_` may appear only between two digits (PEP 515).
`lastU` records whether the previous character was an underscore (it starts
`true` so that an empty string or a leading underscore is rejected). -/
def parseDigitsAux : List Char → Bool → Nat → Option Nat
  | [], lastU, acc => if lastU then none else some acc
  | c :: rest, lastU, acc =>
    if isPyDigit c then parseDigitsAux rest false (acc * 10 + digitVal c)
    else if c = '_' then (if lastU then none else parseDigitsAux rest true acc)
    else none

/-- Model of Python `int(s)` on ASCII input: optional surrounding whitespace,
optional sign, then a digit run.  (Unicode digits are not modelled.)
`none` models the `ValueError` raised on malformed input. -/
def pyIntParse (s : String) : Option Int :=
  match pyStrip s.data with
  | [] => none
  | c :: rest =>
    if c = '+' then (parseDigitsAux rest true 0).map Int.ofNat
    else if c = '-' then (parseDigitsAux rest true 0).map (fun n => -(n : Int))
    else (parseDigitsAux (c :: rest) true 0).map Int.ofNat

/-- Decimal digit character of `n % 10`. -/
def digitChar (n : Nat) : Char := Char.ofNat (48 + n % 10)

/-- Decimal digits of `n`, fuel-driven so that it is structurally recursive
(the fuel `n + 1` always suffices since `n / 10 < n` for `n ≥ 10`). -/
def natStrAux : Nat → Nat → List Char
  | 0, _ => []
  | f + 1, n => if n < 10 then [digitChar n] else natStrAux f (n / 10) ++ [digitChar (n % 10)]

/-- Model of Python `str(n)` for a non-negative integer. -/
def natStr (n : Nat) : String := String.mk (natStrAux (n + 1) n)

/-- Model of Python `str(i)` for an `int` (as interpolated by
`f"...{score}"` and written by `csv.DictWriter`). -/
def intStr (i : Int) : String :=
  if i < 0 then "-" ++ natStr i.natAbs else natStr i.natAbs

/-! ## CSV layer

`get_highscores` opens the file with `open(path, "r")` (universal newlines)
and feeds it to `csv.DictReader(file)`; `update_highscores` writes through
`csv.DictWriter(file, fieldnames=["name", "score", "time"],
lineterminator="\n", delimiter=",")`. -/

/-- Universal-newline translation performed by `open(path, "r")`:
`"\r\n"` and a lone `"\r"` both become `"\n"`. -/
def univNewlines : List Char → List Char
  | [] => []
  | '\r' :: '\n' :: rest => '\n' :: univNewlines rest
  | '\r' :: rest => '\n' :: univNewlines rest
  | c :: rest => c :: univNewlines rest

/-- State of the `csv` module's record scanner. -/
inductive CsvSt where
  /-- at the start of a record (nothing of the record consumed yet) -/
  | rowStart
  /-- at the start of a field after a delimiter -/
  | fieldStart
  /-- inside an unquoted field -/
  | unquoted
  /-- inside a quoted field -/
  | quoted
  /-- just after the closing quote of a quoted field -/
  | afterQuote
  deriving Repr, DecidableEq

/-- Record scanner of the `csv` module (delimiter `,`, quotechar `"`,
QUOTE_MINIMAL, non-strict): splits the character stream into records of
fields.  A record separator is a newline outside quotes; `""` inside a quoted
field is a literal quote; in non-strict mode characters following a closing
quote are appended to the field.  A blank line yields the empty record `[]`
(which `csv.DictReader` later skips for data rows).  `acc` is the current
field, `row` the fields of the current record already completed. -/
def csvScan : List Char → CsvSt → List Char → List String → List (List String)
  | [], .rowStart, _, _ => []
  | [], .fieldStart, _, row => [row ++ [""]]
  | [], .unquoted, acc, row => [row ++ [String.mk acc]]
  | [], .quoted, acc, row => [row ++ [String.mk acc]]
  | [], .afterQuote, acc, row => [row ++ [String.mk acc]]
  | c :: rest, .rowStart, _, _ =>
    if c = '\n' then [] :: csvScan rest .rowStart [] []
    else if c = '"' then csvScan rest .quoted [] []
    else if c = ',' then csvScan rest .fieldStart [] [""]
    else csvScan rest .unquoted [c] []
  | c :: rest, .fieldStart, _, row =>
    if c = '\n' then (row ++ [""]) :: csvScan rest .rowStart [] []
    else if c = '"' then csvScan rest .quoted [] row
    else if c = ',' then csvScan rest .fieldStart [] (row ++ [""])
    else csvScan rest .unquoted [c] row
  | c :: rest, .unquoted, acc, row =>
    if c = '\n' then (row ++ [String.mk acc]) :: csvScan rest .rowStart [] []
    else if c = ',' then csvScan rest .fieldStart [] (row ++ [String.mk acc])
    else csvScan rest .unquoted (acc ++ [c]) row
  | c :: rest, .quoted, acc, row =>
    if c = '"' then csvScan rest .afterQuote acc row
    else csvScan rest .quoted (acc ++ [c]) row
  | c :: rest, .afterQuote, acc, row =>
    if c = '"' then csvScan rest .quoted (acc ++ ['"']) row
    else if c = '\n' then (row ++ [String.mk acc]) :: csvScan rest .rowStart [] []
    else if c = ',' then csvScan rest .fieldStart [] (row ++ [String.mk acc])
    else csvScan rest .unquoted (acc ++ [c]) row

/-- The records of a table file as `csv.reader` sees them after the
universal-newline translation of `open(path, "r")`. -/
def csvRecords (content : String) : List (List String) :=
  csvScan (univNewlines content.data) .rowStart [] []

/-- Errors raised while loading a table; the spec's `CorruptData` taxonomy.
`keyError k` models the `KeyError` from `row[k]` when the header lacks
column `k`; `valueError s` models the `ValueError` from `int(s)` on a
non-integer score; `typeErrorNone` models the `TypeError` from `int(None)`
when a short row left the score column at `restval` `None`. -/
inductive LoadError where
  | keyError (k : String)
  | valueError (s : String)
  | typeErrorNone
  deriving Repr, DecidableEq

/-- The dict `csv.DictReader` builds for a data row:
`dict(zip(fieldnames, row))`, with fieldnames missing from a short row set to
`restval = None` (modelled as the inner `none`). -/
def rowDict (header vals : List String) : List (String × Option String) :=
  header.enum.map (fun p => (p.2, vals.get? p.1))

/-- Python dict lookup on `rowDict` (later duplicate keys win, as in
`dict(...)`); the outer `none` models a `KeyError`. -/
def dictGet (d : List (String × Option String)) (k : String) : Option (Option String) :=
  (d.reverse.find? (fun kv => kv.1 == k)).map (fun kv => kv.2)

/-- Model of `row[k]` for a string-valued column: `KeyError` when the header lacks
the column, the `restval` `None` when the data row is short. -/
def getStrField (header vals : List String) (k : String) : Except LoadError (Option String) :=
  match dictGet (rowDict header vals) k with
  | none => Except.error (.keyError k)
  | some v => Except.ok v

/-- Model of `int(row["score"])`: `KeyError` without a score column, `TypeError` on
`int(None)` for a short row, `ValueError` on a non-integer string. -/
def getIntField (header vals : List String) : Except LoadError Int :=
  match dictGet (rowDict header vals) "score" with
  | none => Except.error (.keyError "score")
  | some none => Except.error .typeErrorNone
  | some (some s) =>
    match pyIntParse s with
    | none => Except.error (.valueError s)
    | some i => Except.ok i

/-- Per-row body of the loader loop:
`{"name": row["name"], "score": int(row["score"]), "time": row["time"]}`. -/
def parseEntry (header vals : List String) : Except LoadError Entry := do
  let name ← getStrField header vals "name"
  let score ← getIntField header vals
  let time ← getStrField header vals "time"
  Except.ok ⟨name, score, time⟩

/-- The loader loop over the data rows (`csv.DictReader` skips rows that are
the empty record `[]`, i.e. blank lines). -/
def parseRows (header : List String) : List (List String) → Except LoadError (List Entry)
  | [] => Except.ok []
  | row :: rest =>
    if row = [] then parseRows header rest
    else do
      let e ← parseEntry header row
      let es ← parseRows header rest
      Except.ok (e :: es)

/-- Parsing a whole table file: the first record (even a blank line) is the
header (`DictReader.fieldnames`); an empty file yields no rows. -/
def parseTable (content : String) : Except LoadError (List Entry) :=
  match csvRecords content with
  | [] => Except.ok []
  | header :: rest => parseRows header rest

/-! ## CSV writer (`update_highscores`) -/

/-- Does `csv.writer` (QUOTE_MINIMAL) need to quote this field?  With
`delimiter=","`, quotechar `"` and `lineterminator="\n"` a field is quoted
iff it contains one of those characters (note: *not* `"\r"`, because the
configured lineterminator is `"\n"` alone). -/
def needsQuote (s : String) : Bool := s.data.any (fun c => c = ',' ∨ c = '"' ∨ c = '\n')

/-- Double every quote character (CSV quote escaping). -/
def escapeQuotes (cs : List Char) : List Char :=
  cs.foldr (fun c acc => if c = '"' then '"' :: '"' :: acc else c :: acc) []

/-- One serialized field, QUOTE_MINIMAL. -/
def encodeField (s : String) : String :=
  if needsQuote s then "\"" ++ String.mk (escapeQuotes s.data) ++ "\"" else s

/-- The `csv.writer` stringification of the dict values `highscore.py` writes:
`None` becomes the empty string, ints are printed in decimal, strings are
written as-is. -/
def fieldOfOptStr (v : Option String) : String :=
  match v with
  | none => ""
  | some s => s

/-- The three serialized column values of one entry, in the writer's
`fieldnames=["name", "score", "time"]` order. -/
def entryFields (e : Entry) : List String :=
  [fieldOfOptStr e.name, intStr e.score, fieldOfOptStr e.time]

/-- One serialized CSV line (no terminator). -/
def encodeRow (fields : List String) : String :=
  match fields with
  | [] => ""
  | f :: rest => rest.foldl (fun acc g => acc ++ "," ++ encodeField g) (encodeField f)

/-- Model of `update_highscores(name, highscores)`: the full file content written —
the header row `name,score,time` followed by one line per entry, each line
terminated by `"\n"`. -/
def encodeCSV (entries : List Entry) : String :=
  "name,score,time\n" ++
    entries.foldl (fun acc e => acc ++ encodeRow (entryFields e) ++ "\n") ""

/-! ## The stable descending sort

`highscores.sort(key=lambda x: x["score"], reverse=True)` is a stable sort on
the score alone.  It is modelled as an insertion sort in which an element is
inserted *before* the first position whose score is not larger: elements
earlier in the input therefore stay before later elements of equal score,
which is exactly stability. -/

/-- Insert `x` into a descending list, before the first entry whose score is
`≤ x.score`. -/
def insertDesc (x : Entry) : List Entry → List Entry
  | [] => [x]
  | y :: ys => if x.score < y.score then y :: insertDesc x ys else x :: y :: ys

/-- Model of the stable descending-by-score sort. -/
def sortDesc (l : List Entry) : List Entry := l.foldr insertDesc []

/-- The descending-by-score ordering on entries. -/
def scoreGE (a b : Entry) : Prop := b.score ≤ a.score

/-! ## Server state, loader and writer -/

/-- The mutable state a request can see: the per-table files under `tables/`
(keyed by table name; `tables/{name}.csv`) and the `lru_cache` memo of
`get_highscores` (keyed by its argument `name`). -/
structure ServerState where
  files : String → Option String
  cache : String → Option (List Entry)

/-- Point update of a table file. -/
def setF (f : String → Option String) (n : String) (v : String) : String → Option String :=
  fun k => if k = n then some v else f k

/-- Load result of a table file, before memoization:
parse the rows, then sort them descending by score (`get_highscores`
lines 46–53). -/
def loadEntries (content : String) : Except LoadError (List Entry) :=
  (parseTable content).map sortDesc

/-- The state produced by `get_highscores` when the table file is missing: it
calls `update_highscores(name, [])` (creating the header-only file) and
memoizes the empty result. -/
def freshTable (st : ServerState) (n : String) : ServerState :=
  { files := setF st.files n (encodeCSV []),
    cache := fun k => if k = n then some [] else st.cache k }

/-- Model of `get_highscores(name)` with its `lru_cache`: a cache hit returns the memo;
otherwise the file is read (created empty first if absent), parsed and
sorted, and the result is memoized.  A parse failure propagates as the
exception it raises in Python and is not memoized. -/
def get_highscores (n : String) (st : ServerState) :
    Except LoadError (List Entry × ServerState) :=
  match st.cache n with
  | some l => Except.ok (l, st)
  | none =>
    match st.files n with
    | none => Except.ok ([], freshTable st n)
    | some content =>
      match loadEntries content with
      | Except.error e => Except.error e
      | Except.ok hs =>
        Except.ok (hs, { st with cache := fun k => if k = n then some hs else st.cache k })

/-! ## SHA-256 (`hashlib.sha256(...).hexdigest()`)

Implemented over `Nat` with explicit reduction mod `2 ^ 32`. -/

/-- The 32-bit word modulus. -/
def w32 : Nat := 4294967296

/-- Right rotation of a 32-bit word. -/
def rotr (n x : Nat) : Nat := ((x >>> n) ||| (x <<< (32 - n))) % w32

/-- SHA-256 `Ch` (`¬x` is `x XOR 0xFFFFFFFF`). -/
def shaCh (x y z : Nat) : Nat := (x &&& y) ^^^ ((x ^^^ 4294967295) &&& z)

/-- SHA-256 `Maj`. -/
def shaMaj (x y z : Nat) : Nat := (x &&& y) ^^^ (x &&& z) ^^^ (y &&& z)

/-- SHA-256 `Σ₀`. -/
def bigSigma0 (x : Nat) : Nat := rotr 2 x ^^^ rotr 13 x ^^^ rotr 22 x

/-- SHA-256 `Σ₁`. -/
def bigSigma1 (x : Nat) : Nat := rotr 6 x ^^^ rotr 11 x ^^^ rotr 25 x

/-- SHA-256 `σ₀`. -/
def smallSigma0 (x : Nat) : Nat := rotr 7 x ^^^ rotr 18 x ^^^ (x >>> 3)

/-- SHA-256 `σ₁`. -/
def smallSigma1 (x : Nat) : Nat := rotr 17 x ^^^ rotr 19 x ^^^ (x >>> 10)

/-- SHA-256 round constants (FIPS 180-4, in decimal). -/
def shaK : List Nat :=
  [1116352408, 1899447441, 3049323471, 3921009573, 961987163,
   1508970993, 2453635748, 2870763221, 3624381080, 310598401,
   607225278, 1426881987, 1925078388, 2162078206, 2614888103,
   3248222580, 3835390401, 4022224774, 264347078, 604807628,
   770255983, 1249150122, 1555081692, 1996064986, 2554220882,
   2821834349, 2952996808, 3210313671, 3336571891, 3584528711,
   113926993, 338241895, 666307205, 773529912, 1294757372,
   1396182291, 1695183700, 1986661051, 2177026350, 2456956037,
   2730485921, 2820302411, 3259730800, 3345764771, 3516065817,
   3600352804, 4094571909, 275423344, 430227734, 506948616,
   659060556, 883997877, 958139571, 1322822218, 1537002063,
   1747873779, 1955562222, 2024104815, 2227730452, 2361852424,
   2428436474, 2756734187, 3204031479, 3329325298]

/-- SHA-256 initial hash value (FIPS 180-4, in decimal). -/
def shaH0 : List Nat :=
  [1779033703, 3144134277, 1013904242, 2773480762,
   1359893119, 2600822924, 528734635, 1541459225]

/-- Big-endian bytes of a 64-bit value (the padded bit length). -/
def be64 (n : Nat) : List Nat :=
  (List.range 8).map (fun i => (n >>> (8 * (7 - i))) % 256)

/-- Big-endian bytes of a 32-bit word. -/
def be32bytes (n : Nat) : List Nat :=
  (List.range 4).map (fun i => (n >>> (8 * (3 - i))) % 256)

/-- SHA-256 message padding: `0x80`, zeros, then the 64-bit big-endian bit
length, to a multiple of 64 bytes. -/
def shaPad (msg : List Nat) : List Nat :=
  msg ++ [0x80] ++ List.replicate ((64 - (msg.length + 9) % 64) % 64) 0 ++ be64 (8 * msg.length)

/-- Split into 64-byte blocks (fuel-driven structural recursion; the fuel
`length + 1` suffices). -/
def toBlocksAux : Nat → List Nat → List (List Nat)
  | 0, _ => []
  | fuel + 1, l => if l = [] then [] else l.take 64 :: toBlocksAux fuel (l.drop 64)

/-- The 64-byte blocks of a padded message. -/
def toBlocks (l : List Nat) : List (List Nat) := toBlocksAux (l.length + 1) l

/-- Extend the 16 block words to the 64-word message schedule. -/
def extendSchedule (ws : List Nat) : List Nat :=
  (List.range 48).foldl
    (fun ws _ =>
      let n := ws.length
      ws ++ [(smallSigma1 (ws.getD (n - 2) 0) + ws.getD (n - 7) 0 +
              smallSigma0 (ws.getD (n - 15) 0) + ws.getD (n - 16) 0) % w32])
    ws

/-- One SHA-256 compression round on the 8-word working state. -/
def shaRound (h : List Nat) (wi ki : Nat) : List Nat :=
  let a := h.getD 0 0
  let b := h.getD 1 0
  let c := h.getD 2 0
  let d := h.getD 3 0
  let e := h.getD 4 0
  let f := h.getD 5 0
  let g := h.getD 6 0
  let hh := h.getD 7 0
  let t1 := (hh + bigSigma1 e + shaCh e f g + ki + wi) % w32
  let t2 := (bigSigma0 a + shaMaj a b c) % w32
  [(t1 + t2) % w32, a, b, c, (d + t1) % w32, e, f, g]

/-- Process one 64-byte block. -/
def processBlock (h : List Nat) (block : List Nat) : List Nat :=
  let w0 := (List.range 16).map (fun i =>
    (block.getD (4 * i) 0) * 16777216 + (block.getD (4 * i + 1) 0) * 65536 +
    (block.getD (4 * i + 2) 0) * 256 + block.getD (4 * i + 3) 0)
  let w := extendSchedule w0
  let h1 := (w.zip shaK).foldl (fun st p => shaRound st p.1 p.2) h
  (h.zip h1).map (fun p => (p.1 + p.2) % w32)

/-- SHA-256 of a byte sequence, as 32 bytes. -/
def sha256bytes (msg : List Nat) : List Nat :=
  ((toBlocks (shaPad msg)).foldl processBlock shaH0).flatMap be32bytes

/-- Lower-case hex character of `n % 16`. -/
def hexChar (n : Nat) : Char :=
  if n % 16 < 10 then Char.ofNat (48 + n % 16) else Char.ofNat (87 + n % 16)

/-- Model of `hexdigest()`: two lower-case hex characters per byte. -/
def hexDigest (bytes : List Nat) : String :=
  String.mk (bytes.flatMap (fun b => [hexChar (b / 16), hexChar b]))

/-- UTF-8 bytes of a string (Python's `str.encode()`). -/
def utf8Bytes (s : String) : List Nat := s.toUTF8.toList.map (fun b => b.toNat)

/-- Model of `calc_secret_key(name, score)` (lines 77–78):
`sha256(f"{name}{args.salt}{score}".encode()).hexdigest()`. -/
def calc_secret_key (cfg : Config) (name : String) (score : Int) : String :=
  hexDigest (sha256bytes (utf8Bytes (name ++ cfg.salt ++ intStr score)))

/-! ## The endpoints -/

/-- Outcome of a request, as far as the core logic is concerned:
`ok` is a 200 with a `Highscores` body, `notFound` the `HTTPException(404)`
from `check_table`, `forbidden` the 403 `JSONResponse` for a bad secret, and
`loadFailed` an exception escaping `get_highscores` (a corrupt table file). -/
inductive ApiResult where
  | ok (body : Highscores)
  | notFound
  | forbidden
  | loadFailed (e : LoadError)
  deriving Repr, DecidableEq

/-- Model of `lowest_score = highscores[-1]["score"] if len(highscores) > 0 else 0`. -/
def lowestScore (l : List Entry) : Int :=
  match l.getLast? with
  | some e => e.score
  | none => 0

/-- The entry appended for an accepted submission:
`{"name": score.name, "score": score.score, "time": int(time.time())}`
(`now` is the current unix time). -/
def mkEntry (sc : Score) (now : Nat) : Entry := ⟨some sc.name, sc.score, some (natStr now)⟩

/-- The admission/merge/truncate core of `save_highscore` (lines 213–222):
returns whether the candidate was admitted together with the new list.
On rejection (`score <= lowest_score and len >= args.size`) the list is
unchanged; otherwise the candidate is appended, the list stable-sorted
descending, and truncated to `args.size` if it exceeds it. -/
def submitStep (size : Nat) (cand : Entry) (l : List Entry) : Bool × List Entry :=
  if cand.score ≤ lowestScore l ∧ size ≤ l.length then (false, l)
  else
    let hs := sortDesc (l ++ [cand])
    (true, if size < hs.length then hs.take size else hs)

/-- State after a successful write: `update_highscores(name, hs)` replaces
the file and `get_highscores.cache_clear()` empties the whole memo table
(all keys, not just `name`). -/
def setTable (st : ServerState) (n : String) (hs : List Entry) : ServerState :=
  { files := setF st.files n (encodeCSV hs), cache := fun _ => none }

/-- Body shared verbatim by the two `save_highscore` handlers (lines 192–206
and 213–227): load, admission check, and on admission persist and clear the
cache.  `n` is the already lower-cased, already validated table name. -/
def saveCore (cfg : Config) (n : String) (sc : Score) (now : Nat) (st : ServerState) :
    ApiResult × ServerState :=
  match get_highscores n st with
  | Except.error e => (ApiResult.loadFailed e, st)
  | Except.ok (es, st1) =>
    match submitStep cfg.size (mkEntry sc now) es with
    | (false, _) => (ApiResult.ok ⟨n, es.map entryToScore⟩, st1)
    | (true, hs2) => (ApiResult.ok ⟨n, hs2.map entryToScore⟩, setTable st1 n hs2)

/-- Endpoint `POST /highscore/save/{name}` without `--use_secret` (lines 208–227):
lower-case the table name, `check_table`, then the shared body. -/
def save_highscore (cfg : Config) (name : String) (sc : Score) (now : Nat)
    (st : ServerState) : ApiResult × ServerState :=
  let n := pyLower name
  if n ∈ cfg.tables then saveCore cfg n sc now st
  else (ApiResult.notFound, st)

/-- Endpoint `POST /highscore/save/{name}` with `--use_secret` (lines 184–206): as
above but rejecting with 403 before any load when
`score.secret != calc_secret_key(score.name, score.score)`. -/
def save_highscore_secret (cfg : Config) (name : String) (sc : VerifiedScore) (now : Nat)
    (st : ServerState) : ApiResult × ServerState :=
  let n := pyLower name
  if n ∈ cfg.tables then
    if sc.secret ≠ calc_secret_key cfg sc.name sc.score then (ApiResult.forbidden, st)
    else saveCore cfg n ⟨sc.name, sc.score⟩ now st
  else (ApiResult.notFound, st)

/-- Endpoint `GET /highscore/{name}` (lines 174–181): lower-case, `check_table`,
load, and wrap in a `Highscores` response. -/
def get_highscore (cfg : Config) (name : String) (st : ServerState) :
    ApiResult × ServerState :=
  let n := pyLower name
  if n ∈ cfg.tables then
    match get_highscores n st with
    | Except.error e => (ApiResult.loadFailed e, st)
    | Except.ok (es, st1) => (ApiResult.ok ⟨n, es.map entryToScore⟩, st1)
  else (ApiResult.notFound, st)

/-! ## Definitions used by the theorems below -/

instance : DecidableRel scoreGE := fun a b => inferInstanceAs (Decidable (b.score ≤ a.score))

/-- Inserting `x` *after* every entry whose score is `≥ x.score`: the position
a freshly appended candidate ends up at after the stable descending sort. -/
def insertLast (x : Entry) : List Entry → List Entry
  | [] => [x]
  | y :: ys => if x.score ≤ y.score then y :: insertLast x ys else x :: y :: ys

/-- A concrete configuration for witnesses: one table `main`, capacity 2,
the default salt. -/
def cfgW : Config := ⟨["main"], 2, "-UwU-"⟩

/-- A concrete full table for witnesses: scores 10 and 5, already cached. -/
def stC3 : ServerState :=
  ⟨fun _ => none, fun _ => some [⟨some "A", 10, some "1"⟩, ⟨some "B", 5, some "1"⟩]⟩

/-- The concatenated encoded data rows of `update_highscores`. -/
def rowsChars : List Entry → List Char
  | [] => []
  | e :: t => (encodeRow (entryFields e)).data ++ '\n' :: rowsChars t

/-- An entry every field of which `save_highscore` could itself have
produced: name and time present, carrying no carriage return.  (A CR inside a
field is written unquoted — the configured lineterminator is `"\n"` — and is
then corrupted by the universal-newline translation on read.) -/
def cleanEntry (e : Entry) : Prop :=
  (∃ ns, e.name = some ns ∧ '\r' ∉ ns.data) ∧ (∃ ts, e.time = some ts ∧ '\r' ∉ ts.data)

/-! ## Properties of the stable sort -/

theorem mem_insertDesc {a x : Entry} {l : List Entry} :
    a ∈ insertDesc x l ↔ a = x ∨ a ∈ l := by
  induction l with
  | nil => simp [insertDesc]
  | cons y ys ih =>
    by_cases h : x.score < y.score
    · simp only [insertDesc, if_pos h, List.mem_cons, ih]
      tauto
    · simp only [insertDesc, if_neg h, List.mem_cons]

theorem sorted_insertDesc {x : Entry} {l : List Entry} (h : List.Sorted scoreGE l) :
    List.Sorted scoreGE (insertDesc x l) := by
  induction l with
  | nil => simp [insertDesc, List.Sorted]
  | cons y ys ih =>
    rw [List.sorted_cons] at h
    by_cases hxy : x.score < y.score
    · rw [insertDesc, if_pos hxy, List.sorted_cons]
      refine ⟨?_, ih h.2⟩
      intro b hb
      rcases mem_insertDesc.1 hb with rfl | hb
      · exact le_of_lt hxy
      · exact h.1 b hb
    · rw [insertDesc, if_neg hxy, List.sorted_cons]
      refine ⟨?_, by rw [List.sorted_cons]; exact h⟩
      intro b hb
      rcases List.mem_cons.1 hb with rfl | hb
      · exact not_lt.1 hxy
      · exact le_trans (h.1 b hb) (not_lt.1 hxy)

theorem sorted_sortDesc (l : List Entry) : List.Sorted scoreGE (sortDesc l) := by
  induction l with
  | nil => simp [sortDesc, List.Sorted]
  | cons a l ih => exact sorted_insertDesc ih

theorem perm_insertDesc (x : Entry) (l : List Entry) : (insertDesc x l).Perm (x :: l) := by
  induction l with
  | nil => simp [insertDesc]
  | cons y ys ih =>
    by_cases h : x.score < y.score
    · rw [insertDesc, if_pos h]
      exact (ih.cons y).trans (List.Perm.swap x y ys)
    · rw [insertDesc, if_neg h]

theorem perm_sortDesc (l : List Entry) : (sortDesc l).Perm l := by
  induction l with
  | nil => simp [sortDesc]
  | cons a l ih => exact (perm_insertDesc a (sortDesc l)).trans (ih.cons a)

theorem filter_insertDesc (a : Entry) (l : List Entry) (s : Int) :
    (insertDesc a l).filter (fun e => e.score == s) =
      if a.score = s then a :: l.filter (fun e => e.score == s)
      else l.filter (fun e => e.score == s) := by
  induction l with
  | nil =>
    by_cases has : a.score = s <;>
      simp [insertDesc, List.filter_cons, has]
  | cons y ys ih =>
    by_cases h : a.score < y.score
    · rw [insertDesc, if_pos h]
      by_cases hy : y.score = s
      · have ha : ¬ a.score = s := by omega
        simp [List.filter_cons, hy, ha, ih]
      · by_cases has : a.score = s <;> simp [List.filter_cons, hy, ih, has]
    · rw [insertDesc, if_neg h]
      by_cases has : a.score = s <;> by_cases hy : y.score = s <;>
        simp [List.filter_cons, has, hy]

theorem filter_sortDesc (l : List Entry) (s : Int) :
    (sortDesc l).filter (fun e => e.score == s) = l.filter (fun e => e.score == s) := by
  induction l with
  | nil => rfl
  | cons a l ih =>
    show (insertDesc a (sortDesc l)).filter _ = _
    rw [filter_insertDesc]
    by_cases has : a.score = s <;> simp [List.filter_cons, has, ih]

theorem insertLast_ne_nil (x : Entry) (l : List Entry) : insertLast x l ≠ [] := by
  cases l with
  | nil => simp [insertLast]
  | cons y ys =>
    rw [insertLast]
    split <;> simp

theorem insertLast_length (x : Entry) (l : List Entry) :
    (insertLast x l).length = l.length + 1 := by
  induction l with
  | nil => rfl
  | cons y ys ih =>
    rw [insertLast]
    split <;> simp [ih]

theorem insertDesc_of_le {a : Entry} {l : List Entry} (h : ∀ b ∈ l, b.score ≤ a.score) :
    insertDesc a l = a :: l := by
  cases l with
  | nil => rfl
  | cons y ys =>
    rw [insertDesc, if_neg]
    exact not_lt.2 (h y (List.mem_cons_self y ys))

theorem insertLast_of_gt {x : Entry} {l : List Entry} (h : ∀ b ∈ l, b.score < x.score) :
    insertLast x l = x :: l := by
  cases l with
  | nil => rfl
  | cons y ys =>
    rw [insertLast, if_neg]
    exact not_le.2 (h y (List.mem_cons_self y ys))

theorem mem_insertLast {a x : Entry} {l : List Entry} :
    a ∈ insertLast x l ↔ a = x ∨ a ∈ l := by
  induction l with
  | nil => simp [insertLast]
  | cons y ys ih =>
    by_cases h : x.score ≤ y.score
    · simp only [insertLast, if_pos h, List.mem_cons, ih]
      tauto
    · simp only [insertLast, if_neg h, List.mem_cons]

theorem insertDesc_insertLast (a x : Entry) (l : List Entry)
    (hal : ∀ b ∈ l, b.score ≤ a.score) :
    insertDesc a (insertLast x l) = insertLast x (a :: l) := by
  by_cases hx : x.score ≤ a.score
  · rw [insertLast, if_pos hx]
    cases hl : insertLast x l with
    | nil => exact absurd hl (insertLast_ne_nil x l)
    | cons z zs =>
      have hz : z ∈ insertLast x l := by rw [hl]; exact List.mem_cons_self z zs
      have hza : z.score ≤ a.score := by
        rcases mem_insertLast.1 hz with rfl | hzl
        · exact hx
        · exact hal z hzl
      rw [insertDesc, if_neg (not_lt.2 hza)]
  · have hgt : ∀ b ∈ l, b.score < x.score :=
      fun b hb => lt_of_le_of_lt (hal b hb) (not_le.1 hx)
    rw [insertLast_of_gt hgt, insertLast, if_neg hx]
    rw [insertDesc, if_pos (not_le.1 hx), insertDesc_of_le hal]

theorem sortDesc_append_single {l : List Entry} (x : Entry) (h : List.Sorted scoreGE l) :
    sortDesc (l ++ [x]) = insertLast x l := by
  induction l with
  | nil => rfl
  | cons a l ih =>
    rw [List.sorted_cons] at h
    show insertDesc a (sortDesc (l ++ [x])) = _
    rw [ih h.2, insertDesc_insertLast a x l h.1]

theorem sortDesc_of_sorted {l : List Entry} (h : List.Sorted scoreGE l) : sortDesc l = l := by
  induction l with
  | nil => rfl
  | cons a l ih =>
    rw [List.sorted_cons] at h
    show insertDesc a (sortDesc l) = _
    rw [ih h.2, insertDesc_of_le h.1]

theorem getLast?_insertLast (x : Entry) :
    ∀ l : List Entry, l ≠ [] → lowestScore l < x.score →
      (insertLast x l).getLast? = l.getLast? := by
  intro l
  induction l with
  | nil => intro h; exact absurd rfl h
  | cons y ys ih =>
    intro _ hgt
    cases ys with
    | nil =>
      have hy : lowestScore [y] = y.score := rfl
      rw [insertLast, if_neg (by rw [hy] at hgt; omega)]
      rfl
    | cons z zs =>
      have hlow : lowestScore (y :: z :: zs) = lowestScore (z :: zs) := by
        simp [lowestScore, List.getLast?_cons_cons]
      by_cases h : x.score ≤ y.score
      · rw [insertLast, if_pos h]
        have h2 := ih (by simp) (by rw [hlow] at hgt; exact hgt)
        cases hl : insertLast x (z :: zs) with
        | nil => exact absurd hl (insertLast_ne_nil x (z :: zs))
        | cons w ws =>
          rw [hl] at h2
          rw [List.getLast?_cons_cons, h2, List.getLast?_cons_cons]
      · rw [insertLast, if_neg h]
        rw [List.getLast?_cons_cons]

/-! ## Properties of the loader state machine -/

theorem get_highscores_cache_some {n : String} {st st1 : ServerState} {es : List Entry}
    (h : get_highscores n st = Except.ok (es, st1)) : st1.cache n = some es := by
  unfold get_highscores at h
  split at h
  · rename_i l heq
    cases h
    exact heq
  · split at h
    · cases h
      simp [freshTable]
    · split at h
      · cases h
      · cases h
        simp

theorem get_highscores_files_eq {n : String} {st st1 : ServerState} {es : List Entry}
    (h : get_highscores n st = Except.ok (es, st1)) (hne : es ≠ []) :
    st1.files = st.files := by
  unfold get_highscores at h
  split at h
  · cases h
    rfl
  · split at h
    · cases h
      exact absurd rfl hne
    · split at h
      · cases h
      · cases h
        rfl

theorem get_highscores_of_cached {n : String} {st : ServerState} {es : List Entry}
    (h : st.cache n = some es) : get_highscores n st = Except.ok (es, st) := by
  unfold get_highscores
  rw [h]

theorem get_highscores_idem {n : String} {st st1 : ServerState} {es : List Entry}
    (h : get_highscores n st = Except.ok (es, st1)) :
    get_highscores n st1 = Except.ok (es, st1) :=
  get_highscores_of_cached (get_highscores_cache_some h)

/-! ## Properties of the admission step -/

theorem submitStep_length_le {size : Nat} {cand : Entry} {l : List Entry}
    (h : l.length ≤ size) : ((submitStep size cand l).2).length ≤ size := by
  unfold submitStep
  split
  · exact h
  · simp only
    split
    · rename_i hgt
      simp only [List.length_take]
      omega
    · rename_i hle
      omega

theorem submitStep_sorted {size : Nat} {cand : Entry} {l : List Entry}
    (h : List.Sorted scoreGE l) : List.Sorted scoreGE ((submitStep size cand l).2) := by
  unfold submitStep
  split
  · exact h
  · simp only
    split
    · exact (sorted_sortDesc (l ++ [cand])).take
    · exact sorted_sortDesc (l ++ [cand])

/-! ## Characterization of `save_highscore` -/

theorem saveCore_eq {cfg : Config} {n : String} {sc : Score} {now : Nat}
    {st st1 : ServerState} {es : List Entry}
    (h : get_highscores n st = Except.ok (es, st1)) :
    saveCore cfg n sc now st =
      if (submitStep cfg.size (mkEntry sc now) es).1 then
        (ApiResult.ok ⟨n, ((submitStep cfg.size (mkEntry sc now) es).2).map entryToScore⟩,
         setTable st1 n ((submitStep cfg.size (mkEntry sc now) es).2))
      else (ApiResult.ok ⟨n, es.map entryToScore⟩, st1) := by
  unfold saveCore
  rw [h]
  rcases hs : submitStep cfg.size (mkEntry sc now) es with ⟨b, l2⟩
  have h2 : (submitStep cfg.size (mkEntry sc now) es).2 = l2 := by rw [hs]
  cases b with
  | false =>
    have h3 : l2 = es := by
      unfold submitStep at hs
      split at hs
      · cases hs; rfl
      · cases hs
    subst h3
    simp [hs]
  | true => simp [hs]

theorem save_highscore_mem {cfg : Config} {name : String} {sc : Score} {now : Nat}
    {st : ServerState} (h : pyLower name ∈ cfg.tables) :
    save_highscore cfg name sc now st = saveCore cfg (pyLower name) sc now st := by
  unfold save_highscore
  rw [if_pos h]

theorem submitStep_foldl_le (size : Nat) :
    ∀ (cands : List Entry) (l : List Entry), l.length ≤ size →
      (cands.foldl (fun l c => (submitStep size c l).2) l).length ≤ size := by
  intro cands
  induction cands with
  | nil => intro l h; exact h
  | cons c cs ih => intro l h; exact ih _ (submitStep_length_le h)

/-! ## The claims -/

/-- C1: for every table and every sequence of submissions to it (starting
from the empty table), after each completed submission the persisted and
returned entry list has length at most the configured capacity `args.size`.
The first conjunct bounds every sequence of admission steps from the empty
table; the second is the one-step invariant; the third shows that
`save_highscore` returns exactly the admission step's list and, on
admission, persists exactly that list. -/
theorem highscore_C1 :
    (∀ (size : Nat) (cands : List Entry),
        ((cands.foldl (fun l c => (submitStep size c l).2) []).length ≤ size)) ∧
    (∀ (size : Nat) (c : Entry) (l : List Entry),
        l.length ≤ size → ((submitStep size c l).2).length ≤ size) ∧
    (∀ (cfg : Config) (name : String) (sc : Score) (now : Nat) (st st1 : ServerState)
        (es : List Entry),
        pyLower name ∈ cfg.tables →
        get_highscores (pyLower name) st = Except.ok (es, st1) →
        save_highscore cfg name sc now st =
          if (submitStep cfg.size (mkEntry sc now) es).1 then
            (ApiResult.ok ⟨pyLower name,
               ((submitStep cfg.size (mkEntry sc now) es).2).map entryToScore⟩,
             setTable st1 (pyLower name) ((submitStep cfg.size (mkEntry sc now) es).2))
          else (ApiResult.ok ⟨pyLower name, es.map entryToScore⟩, st1)) := by
  refine ⟨?_, ?_, ?_⟩
  · intro size cands
    exact submitStep_foldl_le size cands [] (Nat.zero_le _)
  · intro size c l h
    exact submitStep_length_le h
  · intro cfg name sc now st st1 es hmem hload
    rw [save_highscore_mem hmem, saveCore_eq hload]

/-- Witness for C1 at concrete inputs. -/
theorem highscore_C1_witness :
    ((submitStep 2 ⟨some "a", (1 : Int), none⟩ [⟨some "b", 5, none⟩]).2).length ≤ 2 ∧
    save_highscore ⟨["main"], 2, "-UwU-"⟩ "main" ⟨"a", 1⟩ 0
        ⟨fun _ => none, fun _ => some []⟩ =
      (if (submitStep 2 (mkEntry ⟨"a", 1⟩ 0) []).1 then
        (ApiResult.ok ⟨pyLower "main", ((submitStep 2 (mkEntry ⟨"a", 1⟩ 0) []).2).map entryToScore⟩,
         setTable ⟨fun _ => none, fun _ => some []⟩ (pyLower "main")
           ((submitStep 2 (mkEntry ⟨"a", 1⟩ 0) []).2))
      else (ApiResult.ok ⟨pyLower "main", ([] : List Entry).map entryToScore⟩,
        ⟨fun _ => none, fun _ => some []⟩)) :=
  ⟨highscore_C1.2.1 2 ⟨some "a", 1, none⟩ [⟨some "b", 5, none⟩] (by decide),
   highscore_C1.2.2 ⟨["main"], 2, "-UwU-"⟩ "main" ⟨"a", 1⟩ 0
     ⟨fun _ => none, fun _ => some []⟩ ⟨fun _ => none, fun _ => some []⟩ []
     (by decide) (get_highscores_of_cached rfl)⟩

/-- C3: on a table holding exactly `args.size` entries (capacity positive,
list sorted as every loaded table is), a candidate whose score equals the
current minimum is rejected — `save_highscore` returns the unchanged list and
the state is untouched — while a candidate scoring minimum + 1 is admitted:
the new list is the old one with the candidate inserted and the last
(lowest-ranked) prior entry dropped, it is persisted, and its length is again
exactly the capacity.  `(insertLast c l).getLast? = l.getLast?` states that
the evicted element is precisely the prior lowest-ranked entry. -/
theorem highscore_C3 (cfg : Config) (name : String) (st : ServerState) (l : List Entry)
    (scn : String) (v : Int) (now : Nat)
    (hreg : pyLower name ∈ cfg.tables)
    (hcache : st.cache (pyLower name) = some l)
    (hlen : l.length = cfg.size)
    (hpos : 0 < cfg.size)
    (hsort : List.Sorted scoreGE l) :
    (v = lowestScore l →
      save_highscore cfg name ⟨scn, v⟩ now st =
        (ApiResult.ok ⟨pyLower name, l.map entryToScore⟩, st)) ∧
    (v = lowestScore l + 1 →
      save_highscore cfg name ⟨scn, v⟩ now st =
        (ApiResult.ok ⟨pyLower name,
           ((insertLast (mkEntry ⟨scn, v⟩ now) l).dropLast).map entryToScore⟩,
         setTable st (pyLower name) ((insertLast (mkEntry ⟨scn, v⟩ now) l).dropLast)) ∧
      (insertLast (mkEntry ⟨scn, v⟩ now) l).getLast? = l.getLast? ∧
      ((insertLast (mkEntry ⟨scn, v⟩ now) l).dropLast).length = cfg.size) := by
  have hload : get_highscores (pyLower name) st = Except.ok (l, st) :=
    get_highscores_of_cached hcache
  have hne : l ≠ [] := by
    intro hnil
    rw [hnil] at hlen
    simp at hlen
    omega
  constructor
  · intro hv
    rw [save_highscore_mem hreg, saveCore_eq hload]
    have hstep : submitStep cfg.size (mkEntry ⟨scn, v⟩ now) l = (false, l) := by
      unfold submitStep
      rw [if_pos]
      exact ⟨by simp [mkEntry, hv], by omega⟩
    rw [hstep]
    simp
  · intro hv
    have hcand : lowestScore l < (mkEntry ⟨scn, v⟩ now).score := by
      simp [mkEntry]
      omega
    have hsorted_app := sortDesc_append_single (mkEntry ⟨scn, v⟩ now) hsort
    have hlen2 : (insertLast (mkEntry ⟨scn, v⟩ now) l).length = cfg.size + 1 := by
      rw [insertLast_length]
      omega
    have hstep : submitStep cfg.size (mkEntry ⟨scn, v⟩ now) l =
        (true, (insertLast (mkEntry ⟨scn, v⟩ now) l).dropLast) := by
      unfold submitStep
      rw [if_neg]
      · rw [hsorted_app]
        simp only [Prod.mk.injEq, true_and]
        rw [if_pos (by omega)]
        rw [List.dropLast_eq_take, hlen2]
        simp
      · intro hcon
        have := hcon.1
        simp [mkEntry] at this
        omega
    refine ⟨?_, getLast?_insertLast _ l hne hcand, ?_⟩
    · rw [save_highscore_mem hreg, saveCore_eq hload, hstep]
      simp
    · rw [List.length_dropLast, hlen2]
      omega

/-- Witness for C3: on the full two-entry table with minimum 5, a score-5
candidate is rejected unchanged and a score-6 candidate evicts the prior
last entry. -/
theorem highscore_C3_witness :
    save_highscore cfgW "main" ⟨"X", 5⟩ 7 stC3 =
      (ApiResult.ok ⟨pyLower "main",
         [⟨some "A", 10, some "1"⟩, ⟨some "B", 5, some "1"⟩].map entryToScore⟩, stC3) ∧
    (save_highscore cfgW "main" ⟨"Y", 6⟩ 7 stC3 =
      (ApiResult.ok ⟨pyLower "main",
         ((insertLast (mkEntry ⟨"Y", 6⟩ 7)
             [⟨some "A", 10, some "1"⟩, ⟨some "B", 5, some "1"⟩]).dropLast).map entryToScore⟩,
       setTable stC3 (pyLower "main")
         ((insertLast (mkEntry ⟨"Y", 6⟩ 7)
             [⟨some "A", 10, some "1"⟩, ⟨some "B", 5, some "1"⟩]).dropLast)) ∧
      (insertLast (mkEntry ⟨"Y", 6⟩ 7)
          [⟨some "A", 10, some "1"⟩, ⟨some "B", 5, some "1"⟩]).getLast? =
        [⟨some "A", 10, some "1"⟩, ⟨some "B", 5, some "1"⟩].getLast? ∧
      ((insertLast (mkEntry ⟨"Y", 6⟩ 7)
          [⟨some "A", 10, some "1"⟩, ⟨some "B", 5, some "1"⟩]).dropLast).length = cfgW.size) :=
  ⟨(highscore_C3 cfgW "main" stC3 [⟨some "A", 10, some "1"⟩, ⟨some "B", 5, some "1"⟩]
      "X" 5 7 (by decide) rfl rfl (by decide) (by decide)).1 rfl,
   (highscore_C3 cfgW "main" stC3 [⟨some "A", 10, some "1"⟩, ⟨some "B", 5, some "1"⟩]
      "Y" 6 7 (by decide) rfl rfl (by decide) (by decide)).2 rfl⟩

/-- C4: on a full table (loaded entries at least capacity, capacity
positive), a candidate at or below the current minimum is not an error: the
call returns the current leaderboard, the file map is untouched (no write),
and submitting the same losing candidate again returns the same leaderboard
with the state now completely unchanged — the persisted table is
byte-for-byte identical after both calls. -/
theorem highscore_C4 (cfg : Config) (name : String) (sc : Score) (now now2 : Nat)
    (st st1 : ServerState) (es : List Entry)
    (hreg : pyLower name ∈ cfg.tables)
    (hload : get_highscores (pyLower name) st = Except.ok (es, st1))
    (hfull : cfg.size ≤ es.length)
    (hpos : 0 < cfg.size)
    (hlow : sc.score ≤ lowestScore es) :
    save_highscore cfg name sc now st =
      (ApiResult.ok ⟨pyLower name, es.map entryToScore⟩, st1) ∧
    st1.files = st.files ∧
    save_highscore cfg name sc now2 st1 =
      (ApiResult.ok ⟨pyLower name, es.map entryToScore⟩, st1) := by
  have hne : es ≠ [] := by
    intro hnil
    rw [hnil] at hfull
    simp at hfull
    omega
  have hstep : ∀ t : Nat, submitStep cfg.size (mkEntry sc t) es = (false, es) := by
    intro t
    unfold submitStep
    rw [if_pos]
    exact ⟨by simpa [mkEntry] using hlow, hfull⟩
  refine ⟨?_, get_highscores_files_eq hload hne, ?_⟩
  · rw [save_highscore_mem hreg, saveCore_eq hload, hstep now]
    simp
  · rw [save_highscore_mem hreg, saveCore_eq (get_highscores_idem hload), hstep now2]
    simp

/-- Witness for C4 on the concrete full table of `stC3`. -/
theorem highscore_C4_witness :
    save_highscore cfgW "main" ⟨"X", 4⟩ 7 stC3 =
      (ApiResult.ok ⟨pyLower "main",
         [⟨some "A", 10, some "1"⟩, ⟨some "B", 5, some "1"⟩].map entryToScore⟩, stC3) ∧
    stC3.files = stC3.files ∧
    save_highscore cfgW "main" ⟨"X", 4⟩ 8 stC3 =
      (ApiResult.ok ⟨pyLower "main",
         [⟨some "A", 10, some "1"⟩, ⟨some "B", 5, some "1"⟩].map entryToScore⟩, stC3) :=
  highscore_C4 cfgW "main" ⟨"X", 4⟩ 7 8 stC3 stC3
    [⟨some "A", 10, some "1"⟩, ⟨some "B", 5, some "1"⟩]
    (by decide) (get_highscores_of_cached rfl) (by decide) (by decide) (by decide)

/-- C5: a submission to an empty table — in particular one whose file does
not exist yet, which the loader creates on the fly — is admitted whatever its
score (negative and zero included), provided the capacity is positive: the
empty-table sentinel `lowest_score = 0` is never compared against the
candidate because `len(highscores) >= args.size` is false.  The result is
the one-entry leaderboard and it is persisted. -/
theorem highscore_C5 (cfg : Config) (name : String) (sc : Score) (now : Nat)
    (st st1 : ServerState)
    (hreg : pyLower name ∈ cfg.tables)
    (hpos : 0 < cfg.size)
    (hempty : get_highscores (pyLower name) st = Except.ok ([], st1)) :
    save_highscore cfg name sc now st =
      (ApiResult.ok ⟨pyLower name, [⟨some sc.name, sc.score⟩]⟩,
       setTable st1 (pyLower name) [mkEntry sc now]) := by
  have hstep : submitStep cfg.size (mkEntry sc now) [] = (true, [mkEntry sc now]) := by
    unfold submitStep
    rw [if_neg]
    · simp only [Prod.mk.injEq, true_and]
      rw [if_neg]
      · rfl
      · simp only [sortDesc, List.foldr, insertDesc, List.length_singleton]
        omega
    · intro hcon
      have := hcon.2
      simp at this
      omega
  rw [save_highscore_mem hreg, saveCore_eq hempty, hstep]
  simp [mkEntry, entryToScore]

/-- Witness for C5: a negative-score first submission to a missing-file
table is admitted. -/
theorem highscore_C5_witness :
    save_highscore cfgW "main" ⟨"neg", -7⟩ 3 ⟨fun _ => none, fun _ => none⟩ =
      (ApiResult.ok ⟨pyLower "main", [⟨some "neg", -7⟩]⟩,
       setTable (freshTable ⟨fun _ => none, fun _ => none⟩ (pyLower "main")) (pyLower "main")
         [mkEntry ⟨"neg", -7⟩ 3]) :=
  highscore_C5 cfgW "main" ⟨"neg", -7⟩ 3 ⟨fun _ => none, fun _ => none⟩
    (freshTable ⟨fun _ => none, fun _ => none⟩ (pyLower "main"))
    (by decide) (by decide) rfl

theorem saveCore_fst_ne_forbidden (cfg : Config) (n : String) (sc : Score) (now : Nat)
    (st : ServerState) : (saveCore cfg n sc now st).1 ≠ ApiResult.forbidden := by
  unfold saveCore
  split
  · simp
  · split <;> simp

/-- C6: with `--use_secret`, a submission to a registered table is rejected
with 403 Forbidden exactly when the supplied `secret` differs (as a string)
from `calc_secret_key(score.name, score.score)` — the hex digest of SHA-256
over `name ++ salt ++ str(score)` — and such a rejection leaves the whole
state (stored tables and cache alike) untouched: the check precedes the
load. -/
theorem highscore_C6 (cfg : Config) (name : String) (sc : VerifiedScore) (now : Nat)
    (st : ServerState)
    (hreg : pyLower name ∈ cfg.tables) :
    ((save_highscore_secret cfg name sc now st).1 = ApiResult.forbidden ↔
      sc.secret ≠ calc_secret_key cfg sc.name sc.score) ∧
    (sc.secret ≠ calc_secret_key cfg sc.name sc.score →
      save_highscore_secret cfg name sc now st = (ApiResult.forbidden, st)) := by
  unfold save_highscore_secret
  rw [if_pos hreg]
  by_cases hsec : sc.secret = calc_secret_key cfg sc.name sc.score
  · rw [if_neg (by simp [hsec])]
    exact ⟨by simp [saveCore_fst_ne_forbidden, hsec], fun hcon => absurd hsec hcon⟩
  · rw [if_pos hsec]
    exact ⟨by simp [hsec], fun _ => rfl⟩

/-- Witness for C6 at a concrete registered table. -/
theorem highscore_C6_witness :
    ((save_highscore_secret cfgW "main" ⟨"bob", 42, "notthekey"⟩ 0 stC3).1 =
        ApiResult.forbidden ↔
      ("notthekey" : String) ≠ calc_secret_key cfgW "bob" 42) ∧
    (("notthekey" : String) ≠ calc_secret_key cfgW "bob" 42 →
      save_highscore_secret cfgW "main" ⟨"bob", 42, "notthekey"⟩ 0 stC3 =
        (ApiResult.forbidden, stC3)) :=
  highscore_C6 cfgW "main" ⟨"bob", 42, "notthekey"⟩ 0 stC3 (by decide)

/-- C9: a request naming a table whose lower-cased form is not in the
configured registry fails with 404 NotFound on both endpoints, and the state
(files and cache) is returned untouched — `check_table` runs before any
storage or cache access. -/
theorem highscore_C9 (cfg : Config) (name : String) (st : ServerState) (sc : Score)
    (vsc : VerifiedScore) (now now2 : Nat)
    (h : pyLower name ∉ cfg.tables) :
    get_highscore cfg name st = (ApiResult.notFound, st) ∧
    save_highscore cfg name sc now st = (ApiResult.notFound, st) ∧
    save_highscore_secret cfg name vsc now2 st = (ApiResult.notFound, st) := by
  refine ⟨?_, ?_, ?_⟩
  · unfold get_highscore
    rw [if_neg h]
  · unfold save_highscore
    rw [if_neg h]
  · unfold save_highscore_secret
    rw [if_neg h]

/-- Witness for C9 at an unregistered table name. -/
theorem highscore_C9_witness :
    get_highscore cfgW "nosuch" stC3 = (ApiResult.notFound, stC3) ∧
    save_highscore cfgW "nosuch" ⟨"a", 1⟩ 0 stC3 = (ApiResult.notFound, stC3) ∧
    save_highscore_secret cfgW "nosuch" ⟨"a", 1, "k"⟩ 0 stC3 = (ApiResult.notFound, stC3) :=
  highscore_C9 cfgW "nosuch" stC3 ⟨"a", 1⟩ ⟨"a", 1, "k"⟩ 0 0 (by decide)

/-- C2: sortedness and stability.  First conjunct: every load that actually
reads storage (no cache hit) returns a list sorted descending by score.
Second: a submission applied to a sorted current list returns a sorted list
(both on rejection and on admission).  Third: the sort is stable on the score
alone — for every score value, the entries carrying that score appear in the
output in exactly their input order. -/
theorem highscore_C2 :
    (∀ (n : String) (st st1 : ServerState) (es : List Entry),
        st.cache n = none → get_highscores n st = Except.ok (es, st1) →
        List.Sorted scoreGE es) ∧
    (∀ (size : Nat) (c : Entry) (l : List Entry),
        List.Sorted scoreGE l → List.Sorted scoreGE ((submitStep size c l).2)) ∧
    (∀ (l : List Entry) (s : Int),
        (sortDesc l).filter (fun e => e.score == s) = l.filter (fun e => e.score == s)) := by
  refine ⟨?_, ?_, ?_⟩
  · intro n st st1 es hc h
    unfold get_highscores at h
    split at h
    · rename_i l heq
      rw [hc] at heq
      cases heq
    · split at h
      · cases h
        simp [List.Sorted]
      · rename_i content heq
        split at h
        · cases h
        · rename_i hs hl
          cases h
          have hex : ∃ l0, es = sortDesc l0 := by
            unfold loadEntries at hl
            cases hp : parseTable content with
            | error e => rw [hp] at hl; cases hl
            | ok l0 => rw [hp] at hl; cases hl; exact ⟨l0, rfl⟩
          obtain ⟨l0, rfl⟩ := hex
          exact sorted_sortDesc l0
  · intro size c l h
    exact submitStep_sorted h
  · intro l s
    exact filter_sortDesc l s

/-- Witness for C2: a concrete storage read returns a sorted list; a
concrete admission step preserves sortedness; stability at a concrete list
with a tied score. -/
theorem highscore_C2_witness :
    List.Sorted scoreGE [(⟨some "b", 2, some "0"⟩ : Entry), ⟨some "a", 1, some "0"⟩] ∧
    List.Sorted scoreGE
      ((submitStep 2 ⟨some "c", 3, none⟩
        [(⟨some "b", 2, some "0"⟩ : Entry), ⟨some "a", 1, some "0"⟩]).2) ∧
    (sortDesc [(⟨some "x", 1, some "0"⟩ : Entry), ⟨some "y", 1, some "1"⟩]).filter
        (fun e => e.score == (1 : Int)) =
      [(⟨some "x", 1, some "0"⟩ : Entry), ⟨some "y", 1, some "1"⟩].filter
        (fun e => e.score == (1 : Int)) :=
  ⟨highscore_C2.1 "main"
      ⟨fun _ => some "name,score,time\na,1,0\nb,2,0\n", fun _ => none⟩
      ⟨fun _ => some "name,score,time\na,1,0\nb,2,0\n",
       fun k => if k = "main"
         then some [(⟨some "b", 2, some "0"⟩ : Entry), ⟨some "a", 1, some "0"⟩]
         else none⟩
      [(⟨some "b", 2, some "0"⟩ : Entry), ⟨some "a", 1, some "0"⟩] rfl rfl,
   highscore_C2.2.1 2 ⟨some "c", 3, none⟩
     [(⟨some "b", 2, some "0"⟩ : Entry), ⟨some "a", 1, some "0"⟩] (by decide),
   highscore_C2.2.2 [(⟨some "x", 1, some "0"⟩ : Entry), ⟨some "y", 1, some "1"⟩] 1⟩

/-! ## Decimal round trip: `int(str(v)) = v` -/

theorem isPyDigit_digitChar (n : Nat) : isPyDigit (digitChar n) = true := by
  unfold digitChar
  have h : n % 10 < 10 := Nat.mod_lt _ (by norm_num)
  generalize hk : n % 10 = k at h ⊢
  interval_cases k <;> decide

theorem digitVal_digitChar (n : Nat) : digitVal (digitChar n) = n % 10 := by
  unfold digitChar digitVal
  have h : n % 10 < 10 := Nat.mod_lt _ (by norm_num)
  generalize hk : n % 10 = k at h ⊢
  interval_cases k <;> decide

theorem pyDigit_props {c : Char} (h : isPyDigit c = true) :
    pyWhitespace c = false ∧ c ≠ '+' ∧ c ≠ '-' ∧ c ≠ ',' ∧ c ≠ '"' ∧
      c ≠ '\n' ∧ c ≠ '\r' := by
  refine ⟨?_, ?_, ?_, ?_, ?_, ?_, ?_⟩
  · by_contra hcon
    rw [Bool.not_eq_false] at hcon
    simp only [pyWhitespace, decide_eq_true_eq] at hcon
    rcases hcon with rfl | rfl | rfl | rfl | rfl | rfl
    all_goals exact absurd h (by decide)
  all_goals exact fun hcc => absurd (hcc ▸ h) (by decide)

theorem natStrAux_digits :
    ∀ (fuel n : Nat) (c : Char), c ∈ natStrAux fuel n → isPyDigit c = true := by
  intro fuel
  induction fuel with
  | zero => intro n c hc; cases hc
  | succ f ih =>
    intro n c hc
    rw [natStrAux] at hc
    split at hc
    · rcases List.mem_singleton.1 hc with rfl
      exact isPyDigit_digitChar n
    · rcases List.mem_append.1 hc with h1 | h2
      · exact ih _ c h1
      · rcases List.mem_singleton.1 h2 with rfl
        exact isPyDigit_digitChar _

theorem natStrAux_ne_nil (fuel n : Nat) (h : 0 < fuel) : natStrAux fuel n ≠ [] := by
  cases fuel with
  | zero => omega
  | succ f =>
    rw [natStrAux]
    split
    · simp
    · simp

theorem parseDigitsAux_digits_append :
    ∀ (ds : List Char), (∀ c ∈ ds, isPyDigit c = true) →
      ∀ (b : Bool) (acc m : Nat), parseDigitsAux ds b acc = some m →
      ∀ d : Char, isPyDigit d = true →
        parseDigitsAux (ds ++ [d]) b acc = some (m * 10 + digitVal d) := by
  intro ds
  induction ds with
  | nil =>
    intro _ b acc m h d hd
    rw [parseDigitsAux] at h
    split at h
    · cases h
    · cases h
      simp only [List.nil_append, parseDigitsAux, hd, if_true]
      rfl
  | cons c t ih =>
    intro hall b acc m h d hd
    have hc : isPyDigit c = true := hall c (List.mem_cons_self c t)
    rw [parseDigitsAux, if_pos hc] at h
    rw [List.cons_append, parseDigitsAux, if_pos hc]
    exact ih (fun x hx => hall x (List.mem_cons_of_mem c hx)) false _ m h d hd

theorem parseDigits_natStrAux :
    ∀ (fuel n : Nat), n < fuel → parseDigitsAux (natStrAux fuel n) true 0 = some n := by
  intro fuel
  induction fuel with
  | zero => intro n h; omega
  | succ f ih =>
    intro n h
    rw [natStrAux]
    split
    · rename_i h10
      rw [parseDigitsAux, if_pos (isPyDigit_digitChar n)]
      rw [parseDigitsAux]
      simp [digitVal_digitChar, Nat.mod_eq_of_lt h10]
    · rename_i h10
      have hdiv : n / 10 < f := by omega
      have hrec := ih (n / 10) hdiv
      have := parseDigitsAux_digits_append (natStrAux f (n / 10))
        (fun c hc => natStrAux_digits f (n / 10) c hc) true 0 (n / 10) hrec
        (digitChar (n % 10)) (isPyDigit_digitChar _)
      rw [this, digitVal_digitChar]
      congr 1
      omega

theorem dropWhile_eq_self_of_all {p : Char → Bool} :
    ∀ cs : List Char, (∀ c ∈ cs, p c = false) → cs.dropWhile p = cs := by
  intro cs h
  cases cs with
  | nil => rfl
  | cons c t =>
    rw [List.dropWhile_cons, if_neg]
    simp [h c (List.mem_cons_self c t)]

theorem pyStrip_of_no_ws {cs : List Char} (h : ∀ c ∈ cs, pyWhitespace c = false) :
    pyStrip cs = cs := by
  unfold pyStrip
  rw [dropWhile_eq_self_of_all cs h]
  rw [dropWhile_eq_self_of_all cs.reverse (fun c hc => h c (List.mem_reverse.1 hc))]
  exact List.reverse_reverse cs

theorem parseDigitsAux_natStr (n : Nat) :
    parseDigitsAux (natStr n).data true 0 = some n := by
  have h : (natStr n).data = natStrAux (n + 1) n := rfl
  rw [h]
  exact parseDigits_natStrAux (n + 1) n (by omega)

theorem natStr_digits (n : Nat) : ∀ c ∈ (natStr n).data, isPyDigit c = true :=
  fun c hc => natStrAux_digits (n + 1) n c hc

theorem natStr_head_digit (n : Nat) :
    ∃ d t, (natStr n).data = d :: t ∧ isPyDigit d = true := by
  cases hcons : (natStr n).data with
  | nil => exact absurd hcons (natStrAux_ne_nil (n + 1) n (by omega))
  | cons d t =>
    exact ⟨d, t, rfl, natStr_digits n d (by rw [hcons]; exact List.mem_cons_self d t)⟩

theorem pyIntParse_natStr (n : Nat) : pyIntParse (natStr n) = some (Int.ofNat n) := by
  unfold pyIntParse
  obtain ⟨d, t, hcons, hd⟩ := natStr_head_digit n
  rw [pyStrip_of_no_ws (fun c hc => (pyDigit_props (natStr_digits n c hc)).1), hcons]
  show (if d = '+' then (parseDigitsAux t true 0).map Int.ofNat
    else if d = '-' then (parseDigitsAux t true 0).map (fun n => -(n : Int))
    else (parseDigitsAux (d :: t) true 0).map Int.ofNat) = some (Int.ofNat n)
  rw [if_neg (pyDigit_props hd).2.1, if_neg (pyDigit_props hd).2.2.1]
  rw [← hcons, parseDigitsAux_natStr n]
  rfl

theorem pyIntParse_intStr (v : Int) : pyIntParse (intStr v) = some v := by
  unfold intStr
  by_cases hv : v < 0
  · rw [if_pos hv]
    unfold pyIntParse
    have hdata : ("-" ++ natStr v.natAbs).data = '-' :: (natStr v.natAbs).data := by
      rw [String.data_append]
      rfl
    rw [hdata]
    have hall : ∀ c ∈ '-' :: (natStr v.natAbs).data, pyWhitespace c = false := by
      intro c hc
      rcases List.mem_cons.1 hc with rfl | hc2
      · decide
      · exact (pyDigit_props (natStr_digits v.natAbs c hc2)).1
    rw [pyStrip_of_no_ws hall]
    show (if ('-' : Char) = '+' then (parseDigitsAux (natStr v.natAbs).data true 0).map Int.ofNat
      else if ('-' : Char) = '-' then
        (parseDigitsAux (natStr v.natAbs).data true 0).map (fun n => -(n : Int))
      else (parseDigitsAux ('-' :: (natStr v.natAbs).data) true 0).map Int.ofNat) = some v
    rw [if_neg (show ¬ ('-' : Char) = '+' by decide), if_pos rfl]
    rw [parseDigitsAux_natStr v.natAbs]
    show some (-(v.natAbs : Int)) = some v
    congr 1
    omega
  · rw [if_neg hv]
    rw [pyIntParse_natStr v.natAbs]
    rw [show Int.ofNat v.natAbs = v from Int.natAbs_of_nonneg (not_lt.1 hv)]

/-! ## CSV round trip -/

theorem univNewlines_cons_ne {c : Char} (h : c ≠ '\r') (cs : List Char) :
    univNewlines (c :: cs) = c :: univNewlines cs := by
  cases cs with
  | nil => simp [univNewlines, h]
  | cons d t => simp [univNewlines, h]

theorem univNewlines_of_no_cr : ∀ cs : List Char, '\r' ∉ cs → univNewlines cs = cs := by
  intro cs
  induction cs with
  | nil => intro _; rfl
  | cons c t ih =>
    intro h
    have hc : c ≠ '\r' := fun hcc => h (hcc ▸ List.mem_cons_self c t)
    rw [univNewlines_cons_ne hc, ih (fun hm => h (List.mem_cons_of_mem c hm))]

theorem csvScan_unquoted_plain :
    ∀ (ds : List Char), (∀ c ∈ ds, c ≠ '\n' ∧ c ≠ ',') →
      ∀ (cs acc : List Char) (row : List String),
        csvScan (ds ++ cs) .unquoted acc row = csvScan cs .unquoted (acc ++ ds) row := by
  intro ds
  induction ds with
  | nil => intro _ cs acc row; simp
  | cons d t ih =>
    intro h cs acc row
    have hd := h d (List.mem_cons_self d t)
    simp only [List.cons_append, csvScan, List.append_eq]
    rw [if_neg hd.1, if_neg hd.2]
    rw [ih (fun c hc => h c (List.mem_cons_of_mem d hc)) cs (acc ++ [d]) row]
    rw [List.append_assoc]
    rfl

theorem csvScan_quoted_escape :
    ∀ (ds cs acc : List Char) (row : List String),
      csvScan (escapeQuotes ds ++ cs) .quoted acc row = csvScan cs .quoted (acc ++ ds) row := by
  intro ds
  induction ds with
  | nil => intro cs acc row; simp [escapeQuotes]
  | cons d t ih =>
    intro cs acc row
    by_cases hd : d = '"'
    · subst hd
      have he : escapeQuotes ('"' :: t) = '"' :: '"' :: escapeQuotes t := rfl
      rw [he]
      simp only [List.cons_append, csvScan, List.append_eq, if_true]
      rw [ih cs (acc ++ ['"']) row, List.append_assoc]
      rfl
    · have he : escapeQuotes (d :: t) = d :: escapeQuotes t := by
        show (if d = '"' then '"' :: '"' :: escapeQuotes t else d :: escapeQuotes t) = _
        rw [if_neg hd]
      rw [he]
      simp only [List.cons_append, csvScan, List.append_eq]
      rw [if_neg hd]
      rw [ih cs (acc ++ [d]) row, List.append_assoc]
      rfl

theorem not_needsQuote_chars {f : String} (h : needsQuote f = false) :
    ∀ c ∈ f.data, c ≠ ',' ∧ c ≠ '"' ∧ c ≠ '\n' := by
  intro c hc
  unfold needsQuote at h
  rw [List.any_eq_false] at h
  have h2 := h c hc
  simp only [ne_eq, decide_eq_true_eq] at h2
  push_neg at h2
  exact h2

theorem encodeField_data_quoted {f : String} (hq : needsQuote f = true) :
    (encodeField f).data = '"' :: (escapeQuotes f.data ++ ['"']) := by
  unfold encodeField
  rw [if_pos hq]
  rw [String.data_append, String.data_append]
  rfl

theorem encodeField_data_plain {f : String} (hq : ¬ needsQuote f = true) :
    (encodeField f).data = f.data := by
  unfold encodeField
  rw [if_neg hq]

theorem csvScan_field_comma (f : String) (cs : List Char) (row : List String) :
    csvScan ((encodeField f).data ++ ',' :: cs) .fieldStart [] row =
      csvScan cs .fieldStart [] (row ++ [f]) := by
  by_cases hq : needsQuote f
  · rw [encodeField_data_quoted hq, List.cons_append]
    rw [show csvScan ('"' :: ((escapeQuotes f.data ++ ['"']) ++ ',' :: cs)) .fieldStart [] row
        = csvScan ((escapeQuotes f.data ++ ['"']) ++ ',' :: cs) .quoted [] row from rfl]
    rw [List.append_assoc]
    rw [csvScan_quoted_escape f.data (['"'] ++ ',' :: cs) [] row]
    rw [show csvScan (['"'] ++ ',' :: cs) .quoted ([] ++ f.data) row
        = csvScan cs .fieldStart [] (row ++ [String.mk ([] ++ f.data)]) from rfl]
    rfl
  · rw [encodeField_data_plain hq]
    have hchars := not_needsQuote_chars (Bool.eq_false_iff.mpr hq)
    rcases hf : f.data with _ | ⟨d, t⟩
    · have hfe : f = "" := by
        cases f with
        | mk d0 =>
          cases hf
          rfl
      rw [hfe]
      rfl
    · have hd : d ≠ ',' ∧ d ≠ '"' ∧ d ≠ '\n' := by
        apply hchars
        rw [hf]
        exact List.mem_cons_self d t
      rw [List.cons_append]
      simp only [csvScan, List.append_eq]
      rw [if_neg hd.2.2, if_neg hd.2.1, if_neg hd.1]
      rw [csvScan_unquoted_plain t
        (fun c hc =>
          ⟨(hchars c (by rw [hf]; exact List.mem_cons_of_mem d hc)).2.2,
           (hchars c (by rw [hf]; exact List.mem_cons_of_mem d hc)).1⟩)
        (',' :: cs) [d] row]
      rw [show csvScan (',' :: cs) .unquoted ([d] ++ t) row
          = csvScan cs .fieldStart [] (row ++ [String.mk (d :: t)]) from rfl]
      rw [← hf]

theorem csvScan_field_newline (f : String) (cs : List Char) (row : List String) :
    csvScan ((encodeField f).data ++ '\n' :: cs) .fieldStart [] row =
      (row ++ [f]) :: csvScan cs .rowStart [] [] := by
  by_cases hq : needsQuote f
  · rw [encodeField_data_quoted hq, List.cons_append]
    rw [show csvScan ('"' :: ((escapeQuotes f.data ++ ['"']) ++ '\n' :: cs)) .fieldStart [] row
        = csvScan ((escapeQuotes f.data ++ ['"']) ++ '\n' :: cs) .quoted [] row from rfl]
    rw [List.append_assoc]
    rw [csvScan_quoted_escape f.data (['"'] ++ '\n' :: cs) [] row]
    rw [show csvScan (['"'] ++ '\n' :: cs) .quoted ([] ++ f.data) row
        = (row ++ [String.mk ([] ++ f.data)]) :: csvScan cs .rowStart [] [] from rfl]
    rfl
  · rw [encodeField_data_plain hq]
    have hchars := not_needsQuote_chars (Bool.eq_false_iff.mpr hq)
    rcases hf : f.data with _ | ⟨d, t⟩
    · have hfe : f = "" := by
        cases f with
        | mk d0 =>
          cases hf
          rfl
      rw [hfe]
      rfl
    · have hd : d ≠ ',' ∧ d ≠ '"' ∧ d ≠ '\n' := by
        apply hchars
        rw [hf]
        exact List.mem_cons_self d t
      rw [List.cons_append]
      simp only [csvScan, List.append_eq]
      rw [if_neg hd.2.2, if_neg hd.2.1, if_neg hd.1]
      rw [csvScan_unquoted_plain t
        (fun c hc =>
          ⟨(hchars c (by rw [hf]; exact List.mem_cons_of_mem d hc)).2.2,
           (hchars c (by rw [hf]; exact List.mem_cons_of_mem d hc)).1⟩)
        ('\n' :: cs) [d] row]
      rw [show csvScan ('\n' :: cs) .unquoted ([d] ++ t) row
          = (row ++ [String.mk (d :: t)]) :: csvScan cs .rowStart [] [] from rfl]
      rw [← hf]

theorem csvScan_field_comma_rowStart (f : String) (cs : List Char) :
    csvScan ((encodeField f).data ++ ',' :: cs) .rowStart [] [] =
      csvScan cs .fieldStart [] [f] := by
  by_cases hq : needsQuote f
  · rw [encodeField_data_quoted hq, List.cons_append]
    rw [show csvScan ('"' :: ((escapeQuotes f.data ++ ['"']) ++ ',' :: cs)) .rowStart [] []
        = csvScan ((escapeQuotes f.data ++ ['"']) ++ ',' :: cs) .quoted [] [] from rfl]
    rw [List.append_assoc]
    rw [csvScan_quoted_escape f.data (['"'] ++ ',' :: cs) [] []]
    rw [show csvScan (['"'] ++ ',' :: cs) .quoted ([] ++ f.data) []
        = csvScan cs .fieldStart [] [String.mk ([] ++ f.data)] from rfl]
    rfl
  · rw [encodeField_data_plain hq]
    have hchars := not_needsQuote_chars (Bool.eq_false_iff.mpr hq)
    rcases hf : f.data with _ | ⟨d, t⟩
    · have hfe : f = "" := by
        cases f with
        | mk d0 =>
          cases hf
          rfl
      rw [hfe]
      rfl
    · have hd : d ≠ ',' ∧ d ≠ '"' ∧ d ≠ '\n' := by
        apply hchars
        rw [hf]
        exact List.mem_cons_self d t
      rw [List.cons_append]
      simp only [csvScan, List.append_eq]
      rw [if_neg hd.2.2, if_neg hd.2.1, if_neg hd.1]
      rw [csvScan_unquoted_plain t
        (fun c hc =>
          ⟨(hchars c (by rw [hf]; exact List.mem_cons_of_mem d hc)).2.2,
           (hchars c (by rw [hf]; exact List.mem_cons_of_mem d hc)).1⟩)
        (',' :: cs) [d] []]
      rw [show csvScan (',' :: cs) .unquoted ([d] ++ t) []
          = csvScan cs .fieldStart [] [String.mk (d :: t)] from rfl]
      rw [← hf]

theorem encodeRow3_data (f1 f2 f3 : String) :
    (encodeRow [f1, f2, f3]).data =
      (encodeField f1).data ++ ',' :: ((encodeField f2).data ++ ',' :: (encodeField f3).data) := by
  show ((((encodeField f1 ++ ",") ++ encodeField f2) ++ ",") ++ encodeField f3).data = _
  have hc : ("," : String).data = [','] := rfl
  simp [String.data_append, hc, List.append_assoc]

theorem csvScan_row3 (f1 f2 f3 : String) (cs : List Char) :
    csvScan ((encodeRow [f1, f2, f3]).data ++ '\n' :: cs) .rowStart [] [] =
      [f1, f2, f3] :: csvScan cs .rowStart [] [] := by
  rw [encodeRow3_data]
  simp only [List.append_assoc, List.cons_append]
  rw [csvScan_field_comma_rowStart f1]
  rw [csvScan_field_comma f2]
  rw [csvScan_field_newline f3]
  rfl

theorem encodeCSV_data (l : List Entry) :
    (encodeCSV l).data = "name,score,time\n".data ++ rowsChars l := by
  unfold encodeCSV
  rw [String.data_append]
  congr 1
  have h : ∀ (t : List Entry) (a : String),
      (t.foldl (fun acc e => acc ++ encodeRow (entryFields e) ++ "\n") a).data =
        a.data ++ rowsChars t := by
    intro t
    induction t with
    | nil => intro a; simp [rowsChars]
    | cons e t2 ih =>
      intro a
      rw [List.foldl_cons, ih]
      rw [rowsChars]
      rw [String.data_append, String.data_append]
      have hn : ("\n" : String).data = ['\n'] := rfl
      rw [hn]
      simp [List.append_assoc]
  have h2 := h l ""
  rw [h2]
  rfl

theorem csvScan_rowsChars (l : List Entry) :
    csvScan (rowsChars l) .rowStart [] [] = l.map entryFields := by
  induction l with
  | nil => rfl
  | cons e t ih =>
    rw [rowsChars]
    rw [show entryFields e = [fieldOfOptStr e.name, intStr e.score, fieldOfOptStr e.time] from rfl]
    rw [csvScan_row3, ih]
    rfl

theorem csvRecords_encodeCSV (l : List Entry) (hcr : '\r' ∉ (encodeCSV l).data) :
    csvRecords (encodeCSV l) = ["name", "score", "time"] :: l.map entryFields := by
  unfold csvRecords
  rw [univNewlines_of_no_cr _ hcr, encodeCSV_data]
  have hh : "name,score,time\n".data = (encodeRow ["name", "score", "time"]).data ++ ['\n'] := rfl
  rw [hh, List.append_assoc]
  rw [show (['\n'] : List Char) ++ rowsChars l = '\n' :: rowsChars l from rfl]
  rw [csvScan_row3, csvScan_rowsChars]

theorem mem_escapeQuotes {c : Char} :
    ∀ ds : List Char, c ∈ escapeQuotes ds → c = '"' ∨ c ∈ ds := by
  intro ds
  induction ds with
  | nil => intro h; cases h
  | cons d t ih =>
    intro h
    by_cases hd : d = '"'
    · subst hd
      rw [show escapeQuotes ('"' :: t) = '"' :: '"' :: escapeQuotes t from rfl] at h
      rcases List.mem_cons.1 h with rfl | h2
      · exact Or.inl rfl
      · rcases List.mem_cons.1 h2 with rfl | h3
        · exact Or.inl rfl
        · rcases ih h3 with h4 | h4
          · exact Or.inl h4
          · exact Or.inr (List.mem_cons_of_mem _ h4)
    · rw [show escapeQuotes (d :: t) = (if d = '"' then '"' :: '"' :: escapeQuotes t
          else d :: escapeQuotes t) from rfl, if_neg hd] at h
      rcases List.mem_cons.1 h with rfl | h2
      · exact Or.inr (List.mem_cons_self _ _)
      · rcases ih h2 with h4 | h4
        · exact Or.inl h4
        · exact Or.inr (List.mem_cons_of_mem _ h4)

theorem mem_encodeField {c : Char} {f : String} (h : c ∈ (encodeField f).data) :
    c = '"' ∨ c ∈ f.data := by
  by_cases hq : needsQuote f
  · rw [encodeField_data_quoted hq] at h
    rcases List.mem_cons.1 h with rfl | h2
    · exact Or.inl rfl
    · rcases List.mem_append.1 h2 with h3 | h3
      · exact mem_escapeQuotes f.data h3
      · rcases List.mem_singleton.1 h3 with rfl
        exact Or.inl rfl
  · rw [encodeField_data_plain hq] at h
    exact Or.inr h

theorem mem_encodeRow3 {c : Char} {f1 f2 f3 : String}
    (h : c ∈ (encodeRow [f1, f2, f3]).data) :
    c = ',' ∨ c = '"' ∨ c ∈ f1.data ∨ c ∈ f2.data ∨ c ∈ f3.data := by
  rw [encodeRow3_data] at h
  rcases List.mem_append.1 h with h1 | h1
  · rcases mem_encodeField h1 with h2 | h2
    · exact Or.inr (Or.inl h2)
    · exact Or.inr (Or.inr (Or.inl h2))
  · rcases List.mem_cons.1 h1 with rfl | h2
    · exact Or.inl rfl
    · rcases List.mem_append.1 h2 with h3 | h3
      · rcases mem_encodeField h3 with h4 | h4
        · exact Or.inr (Or.inl h4)
        · exact Or.inr (Or.inr (Or.inr (Or.inl h4)))
      · rcases List.mem_cons.1 h3 with rfl | h4
        · exact Or.inl rfl
        · rcases mem_encodeField h4 with h5 | h5
          · exact Or.inr (Or.inl h5)
          · exact Or.inr (Or.inr (Or.inr (Or.inr h5)))

theorem no_cr_intStr (v : Int) : '\r' ∉ (intStr v).data := by
  intro h
  unfold intStr at h
  split at h
  · rw [String.data_append] at h
    rcases List.mem_append.1 h with h1 | h1
    · rcases List.mem_singleton.1 h1 with h2
      cases h2
    · exact absurd (natStr_digits _ _ h1) (by decide)
  · exact absurd (natStr_digits _ _ h) (by decide)

theorem no_cr_encodeCSV (l : List Entry) (hclean : ∀ e ∈ l, cleanEntry e) :
    '\r' ∉ (encodeCSV l).data := by
  intro h
  rw [encodeCSV_data] at h
  rcases List.mem_append.1 h with h1 | h1
  · exact absurd h1 (by decide)
  · clear h
    induction l with
    | nil => cases h1
    | cons e t ih =>
      rw [rowsChars] at h1
      rcases List.mem_append.1 h1 with h2 | h2
      · obtain ⟨⟨ns, hns, hnr⟩, ⟨ts, hts, htr⟩⟩ := hclean e (List.mem_cons_self e t)
        rw [show entryFields e =
            [fieldOfOptStr e.name, intStr e.score, fieldOfOptStr e.time] from rfl] at h2
        rcases mem_encodeRow3 h2 with h3 | h3 | h3 | h3 | h3
        · cases h3
        · cases h3
        · rw [hns] at h3
          exact hnr h3
        · exact no_cr_intStr e.score h3
        · rw [hts] at h3
          exact htr h3
      · rcases List.mem_cons.1 h2 with h3 | h3
        · cases h3
        · exact ih (fun e2 he2 => hclean e2 (List.mem_cons_of_mem e he2)) h3

theorem parseEntry_fields (ns ts : String) (v : Int) :
    parseEntry ["name", "score", "time"] [ns, intStr v, ts] =
      Except.ok ⟨some ns, v, some ts⟩ := by
  have h1 : getStrField ["name", "score", "time"] [ns, intStr v, ts] "name" =
      Except.ok (some ns) := rfl
  have h3 : getStrField ["name", "score", "time"] [ns, intStr v, ts] "time" =
      Except.ok (some ts) := rfl
  have h2 : getIntField ["name", "score", "time"] [ns, intStr v, ts] = Except.ok v := by
    show (match pyIntParse (intStr v) with
      | none => (Except.error (LoadError.valueError (intStr v)) : Except LoadError Int)
      | some i => Except.ok i) = Except.ok v
    rw [pyIntParse_intStr v]
  unfold parseEntry
  rw [h1, h2, h3]
  rfl

theorem entryFields_ne_nil (e : Entry) : entryFields e ≠ [] := by
  simp [entryFields]

theorem parseRows_map (l : List Entry) (hclean : ∀ e ∈ l, cleanEntry e) :
    parseRows ["name", "score", "time"] (l.map entryFields) = Except.ok l := by
  induction l with
  | nil => rfl
  | cons e t ih =>
    obtain ⟨⟨ns, hns, hnr⟩, ⟨ts, hts, htr⟩⟩ := hclean e (List.mem_cons_self e t)
    rw [List.map_cons]
    rw [show parseRows ["name", "score", "time"] (entryFields e :: t.map entryFields) =
        (if entryFields e = [] then parseRows ["name", "score", "time"] (t.map entryFields)
         else do
           let x ← parseEntry ["name", "score", "time"] (entryFields e)
           let es ← parseRows ["name", "score", "time"] (t.map entryFields)
           Except.ok (x :: es)) from rfl]
    rw [if_neg (entryFields_ne_nil e)]
    have hfe : entryFields e = [ns, intStr e.score, ts] := by
      rw [show entryFields e =
          [fieldOfOptStr e.name, intStr e.score, fieldOfOptStr e.time] from rfl, hns, hts]
      rfl
    rw [hfe, parseEntry_fields ns ts e.score]
    rw [ih (fun x hx => hclean x (List.mem_cons_of_mem e hx))]
    show Except.ok ((⟨some ns, e.score, some ts⟩ : Entry) :: t) = Except.ok (e :: t)
    rw [← hns, ← hts]

theorem loadEntries_encodeCSV (l : List Entry) (hclean : ∀ e ∈ l, cleanEntry e) :
    loadEntries (encodeCSV l) = Except.ok (sortDesc l) := by
  unfold loadEntries parseTable
  rw [csvRecords_encodeCSV l (no_cr_encodeCSV l hclean)]
  show (parseRows ["name", "score", "time"] (l.map entryFields)).map sortDesc =
    Except.ok (sortDesc l)
  rw [parseRows_map l hclean]
  rfl

/-- C8 (amended): for entry lists whose name and time fields are present and
free of carriage returns (which every list the program itself writes is),
saving then loading returns exactly the stable descending re-sort of what was
written — hence the same multiset of (name, score, time) records — and the
very same list in the same order whenever the written list was already sorted
descending by score.  The order is *not* preserved for an unsorted list,
because `get_highscores` re-sorts on load (see the counterexample). -/
theorem highscore_C8 (l : List Entry) (hclean : ∀ e ∈ l, cleanEntry e) :
    loadEntries (encodeCSV l) = Except.ok (sortDesc l) ∧
    (sortDesc l).Perm l ∧
    (List.Sorted scoreGE l → loadEntries (encodeCSV l) = Except.ok l) :=
  ⟨loadEntries_encodeCSV l hclean, perm_sortDesc l,
   fun hs => by rw [loadEntries_encodeCSV l hclean, sortDesc_of_sorted hs]⟩

/-- Counterexample to C8 as stated: writing the (unsorted) list
`[a: 1, b: 2]` and loading it back yields `[b: 2, a: 1]` — the same multiset
but not the same order. -/
theorem highscore_C8_counterexample :
    loadEntries (encodeCSV [⟨some "a", 1, some "0"⟩, ⟨some "b", 2, some "0"⟩]) =
      Except.ok [⟨some "b", 2, some "0"⟩, ⟨some "a", 1, some "0"⟩] ∧
    ([(⟨some "b", 2, some "0"⟩ : Entry), ⟨some "a", 1, some "0"⟩] : List Entry) ≠
      [⟨some "a", 1, some "0"⟩, ⟨some "b", 2, some "0"⟩] := by
  constructor
  · rfl
  · decide

/-- Witness for C8 on a concrete sorted two-entry list. -/
theorem highscore_C8_witness :
    loadEntries (encodeCSV [⟨some "x", 3, some "9"⟩, ⟨some "y", 1, some "8"⟩]) =
      Except.ok (sortDesc [⟨some "x", 3, some "9"⟩, ⟨some "y", 1, some "8"⟩]) ∧
    (sortDesc [(⟨some "x", 3, some "9"⟩ : Entry), ⟨some "y", 1, some "8"⟩]).Perm
      [⟨some "x", 3, some "9"⟩, ⟨some "y", 1, some "8"⟩] ∧
    (List.Sorted scoreGE [(⟨some "x", 3, some "9"⟩ : Entry), ⟨some "y", 1, some "8"⟩] →
      loadEntries (encodeCSV [⟨some "x", 3, some "9"⟩, ⟨some "y", 1, some "8"⟩]) =
        Except.ok [⟨some "x", 3, some "9"⟩, ⟨some "y", 1, some "8"⟩]) :=
  highscore_C8 [⟨some "x", 3, some "9"⟩, ⟨some "y", 1, some "8"⟩]
    (by
      intro e he
      rcases List.mem_cons.1 he with rfl | he2
      · exact ⟨⟨"x", rfl, by decide⟩, ⟨"9", rfl, by decide⟩⟩
      · rcases List.mem_cons.1 he2 with rfl | he3
        · exact ⟨⟨"y", rfl, by decide⟩, ⟨"8", rfl, by decide⟩⟩
        · cases he3)

theorem parseRows_error_of_mem (header : List String) :
    ∀ (rows : List (List String)) (row : List String) (e : LoadError),
      row ∈ rows → row ≠ [] → parseEntry header row = Except.error e →
      ∃ e2, parseRows header rows = Except.error e2 := by
  intro rows
  induction rows with
  | nil => intro row e hmem; cases hmem
  | cons r rest ih =>
    intro row e hmem hne hpe
    by_cases hr : r = []
    · rw [show parseRows header (r :: rest) =
          (if r = [] then parseRows header rest
           else do
             let x ← parseEntry header r
             let es ← parseRows header rest
             Except.ok (x :: es)) from rfl, if_pos hr]
      rcases List.mem_cons.1 hmem with rfl | hmem2
      · exact absurd hr hne
      · exact ih row e hmem2 hne hpe
    · rw [show parseRows header (r :: rest) =
          (if r = [] then parseRows header rest
           else do
             let x ← parseEntry header r
             let es ← parseRows header rest
             Except.ok (x :: es)) from rfl, if_neg hr]
      rcases List.mem_cons.1 hmem with rfl | hmem2
      · rw [hpe]
        exact ⟨e, rfl⟩
      · cases hp : parseEntry header r with
        | error e3 => exact ⟨e3, rfl⟩
        | ok x =>
          obtain ⟨e2, h2⟩ := ih row e hmem2 hne hpe
          rw [show (do
              let x2 ← Except.ok x
              let es ← parseRows header rest
              Except.ok (x2 :: es) : Except LoadError (List Entry)) =
            (parseRows header rest).bind (fun es => Except.ok (x :: es)) from rfl]
          rw [h2]
          exact ⟨e2, rfl⟩

theorem parseRows_ok_forall₂ (header : List String) :
    ∀ (rows : List (List String)) (es : List Entry),
      parseRows header rows = Except.ok es →
      List.Forall₂ (fun row e => parseEntry header row = Except.ok e)
        (rows.filter (fun r => !r.isEmpty)) es := by
  intro rows
  induction rows with
  | nil =>
    intro es h
    cases h
    exact List.Forall₂.nil
  | cons r rest ih =>
    intro es h
    by_cases hr : r = []
    · subst hr
      rw [show parseRows header ([] :: rest) = parseRows header rest from rfl] at h
      rw [show (([] :: rest).filter (fun r => !r.isEmpty)) =
        rest.filter (fun r => !r.isEmpty) from rfl]
      exact ih es h
    · rw [show parseRows header (r :: rest) =
          (if r = [] then parseRows header rest
           else do
             let x ← parseEntry header r
             let es2 ← parseRows header rest
             Except.ok (x :: es2)) from rfl, if_neg hr] at h
      cases hp : parseEntry header r with
      | error e3 =>
        rw [hp] at h
        cases h
      | ok x =>
        rw [hp] at h
        cases hq : parseRows header rest with
        | error e4 =>
          rw [hq] at h
          cases h
        | ok es2 =>
          rw [hq] at h
          cases h
          have hfil : ((r :: rest).filter (fun r => !r.isEmpty)) =
              r :: rest.filter (fun r => !r.isEmpty) := by
            rw [List.filter_cons, if_pos]
            simp [List.isEmpty_iff, hr]
          rw [hfil]
          exact List.Forall₂.cons hp (ih es2 hq)

/-- C7: a malformed data row (any row on which the per-row parse raises — in
particular a non-integer score string, `LoadError.valueError`) makes the
whole load fail; conversely a successful parse accounts for every non-blank
row, in order, through `parseEntry` — nothing is dropped or coerced; and a
parse failure of the stored file propagates out of `get_highscores` as the
error it raises. -/
theorem highscore_C7 :
    (∀ (content : String) (header : List String) (rows : List (List String))
        (row : List String) (e : LoadError),
        csvRecords content = header :: rows → row ∈ rows → row ≠ [] →
        parseEntry header row = Except.error e →
        ∃ e2, parseTable content = Except.error e2) ∧
    (∀ (header : List String) (rows : List (List String)) (es : List Entry),
        parseRows header rows = Except.ok es →
        List.Forall₂ (fun row e => parseEntry header row = Except.ok e)
          (rows.filter (fun r => !r.isEmpty)) es) ∧
    (∀ (n content : String) (st : ServerState) (e : LoadError),
        st.cache n = none → st.files n = some content →
        parseTable content = Except.error e →
        get_highscores n st = Except.error e) := by
  refine ⟨?_, ?_, ?_⟩
  · intro content header rows row e hrec hmem hne hpe
    unfold parseTable
    rw [hrec]
    exact parseRows_error_of_mem header rows row e hmem hne hpe
  · intro header rows es h
    exact parseRows_ok_forall₂ header rows es h
  · intro n content st e hc hf hp
    have hl : loadEntries content = Except.error e := by
      unfold loadEntries
      rw [hp]
      rfl
    unfold get_highscores
    simp only [hc, hf, hl]

/-- Witness for C7: the concrete file `name,score,time\na,xx,0\n` whose
score field `xx` is not an integer fails to load end to end. -/
theorem highscore_C7_witness :
    (∃ e2, parseTable "name,score,time\na,xx,0\n" = Except.error e2) ∧
    List.Forall₂
      (fun row e => parseEntry ["name", "score", "time"] row = Except.ok e)
      ([["a", "5", "0"]].filter (fun r => !r.isEmpty)) [⟨some "a", 5, some "0"⟩] ∧
    get_highscores "main"
        ⟨fun _ => some "name,score,time\na,xx,0\n", fun _ => none⟩ =
      Except.error (LoadError.valueError "xx") :=
  ⟨highscore_C7.1 "name,score,time\na,xx,0\n" ["name", "score", "time"]
      [["a", "xx", "0"]] ["a", "xx", "0"] (LoadError.valueError "xx")
      rfl (List.mem_singleton.2 rfl) (by decide) rfl,
   highscore_C7.2.1 ["name", "score", "time"] [["a", "5", "0"]]
     [⟨some "a", 5, some "0"⟩] rfl,
   highscore_C7.2.2 "main" "name,score,time\na,xx,0\n"
     ⟨fun _ => some "name,score,time\na,xx,0\n", fun _ => none⟩
     (LoadError.valueError "xx") rfl rfl rfl⟩

theorem parseEntry_two_col (vals : List String) :
    ∃ e, parseEntry ["name", "score"] vals = Except.error e := by
  have hname : getStrField ["name", "score"] vals "name" = Except.ok (vals.get? 0) := rfl
  have htime : getStrField ["name", "score"] vals "time" =
      Except.error (LoadError.keyError "time") := rfl
  cases hv : vals.get? 1 with
  | none =>
    refine ⟨LoadError.typeErrorNone, ?_⟩
    have h2 : getIntField ["name", "score"] vals = Except.error LoadError.typeErrorNone := by
      unfold getIntField
      rw [show dictGet (rowDict ["name", "score"] vals) "score" = some (vals.get? 1) from rfl,
        hv]
    unfold parseEntry
    rw [hname, h2]
    rfl
  | some s =>
    cases hps : pyIntParse s with
    | none =>
      refine ⟨LoadError.valueError s, ?_⟩
      have h2 : getIntField ["name", "score"] vals =
          Except.error (LoadError.valueError s) := by
        unfold getIntField
        rw [show dictGet (rowDict ["name", "score"] vals) "score" = some (vals.get? 1) from rfl,
          hv]
        show (match pyIntParse s with
          | none => (Except.error (LoadError.valueError s) : Except LoadError Int)
          | some i => Except.ok i) = Except.error (LoadError.valueError s)
        rw [hps]
      unfold parseEntry
      rw [hname, h2]
      rfl
    | some i =>
      refine ⟨LoadError.keyError "time", ?_⟩
      have h2 : getIntField ["name", "score"] vals = Except.ok i := by
        unfold getIntField
        rw [show dictGet (rowDict ["name", "score"] vals) "score" = some (vals.get? 1) from rfl,
          hv]
        show (match pyIntParse s with
          | none => (Except.error (LoadError.valueError s) : Except LoadError Int)
          | some i => Except.ok i) = Except.ok i
        rw [hps]
      unfold parseEntry
      rw [hname, h2, htime]
      rfl

/-- C10 (amended): every save writes the three-column header
`name,score,time`, and loading a file whose header is the two-column
`name,score` schema fails whenever the file contains at least one non-blank
data row, because the loader unconditionally reads `row["time"]` (and, on
short rows, `int` of a missing score).  A *header-only* two-column file is
the one exception: it yields no rows, so the load succeeds with the empty
table (see the counterexample). -/
theorem highscore_C10 :
    (∀ l : List Entry, ∃ rest, encodeCSV l = "name,score,time\n" ++ rest) ∧
    (∀ (content : String) (rows : List (List String)) (row : List String),
        csvRecords content = ["name", "score"] :: rows → row ∈ rows → row ≠ [] →
        ∃ e, parseTable content = Except.error e) := by
  constructor
  · intro l
    exact ⟨l.foldl (fun acc e => acc ++ encodeRow (entryFields e) ++ "\n") "", rfl⟩
  · intro content rows row hrec hmem hne
    unfold parseTable
    rw [hrec]
    obtain ⟨e, hpe⟩ := parseEntry_two_col row
    exact parseRows_error_of_mem ["name", "score"] rows row e hmem hne hpe

/-- Counterexample to C10 as stated: the header-only two-column file
`name,score\n` loads successfully as the empty table instead of failing. -/
theorem highscore_C10_counterexample :
    parseTable "name,score\n" = Except.ok [] ∧
    loadEntries "name,score\n" = Except.ok [] := by
  constructor
  · rfl
  · rfl

/-- Witness for C10: the header fact at the empty list, and failure on a
concrete two-column file with one data row. -/
theorem highscore_C10_witness :
    (∃ rest, encodeCSV [] = "name,score,time\n" ++ rest) ∧
    (∃ e, parseTable "name,score\nalice,5\n" = Except.error e) :=
  ⟨highscore_C10.1 [],
   highscore_C10.2 "name,score\nalice,5\n" [["alice", "5"]] ["alice", "5"] rfl
     (List.mem_singleton.2 rfl) (by decide)⟩
